import Mathlib

/-!
Verification development for the GeminiTaskEngine turn-execution engine
(`src/core/TaskEngine.ts`).

The engine's data model and its operations are shallowly embedded:

* wall-clock time (`Date.now()`) is abstracted as `0`: the engine only uses
  it for durations, start times and synthesized call ids, none of which any
  property here depends on beyond being present;
* console logging and the telemetry shutdown have no observable effect on
  the engine state and are dropped;
* the external collaborators (the model session's `sendMessageStream`, the
  tool executor `executeToolCall`, the continuation oracle
  `checkNextSpeaker`, the configuration/prompt builders) are modelled as an
  environment `Env` giving their answer for each turn index — the engine
  never branches on anything else about them;
* thrown exceptions are modelled with `Except`; the abort signal is never
  set during `executeTask` (the `AbortController` is local to it and
  `abort()` does not reach it), so the `signal.aborted` branch is dropped;
* JavaScript regular expression tests are modelled as case-insensitive
  in-order substring matching per line (the patterns involved are
  alternations of literal words separated by `.*`, and `.` does not match a
  newline in JavaScript);
* TypeScript numbers used as counters are modelled as `Nat` (the default
  configuration builder rejects non-positive `maxTurns`, so
  `getMaxSessionTurns` is non-negative), and the progress percentage as `ℚ`.
-/

namespace TaskEngine

/-! ## Basic string machinery (model of JS `includes`, `toLowerCase`, regex) -/

/-- First occurrence of `w` in `s`: `some rest` with `rest` the suffix after
the occurrence, `none` when `w` does not occur. -/
def findDrop : List Char → List Char → Option (List Char)
  | [], p => if p = [] then some [] else none
  | c :: rest, p =>
    if p.isPrefixOf (c :: rest) then some ((c :: rest).drop p.length)
    else findDrop rest p

/-- Model of JS `String.prototype.includes` (case sensitive). -/
def strContains (s w : String) : Bool :=
  (findDrop s.data w.data).isSome

/-- ASCII lowercasing, model of `toLowerCase` / a `/i` regex flag. -/
def lowerStr (s : String) : String :=
  String.mk (s.data.map Char.toLower)

/-- Split at newlines (model of splitting a string on `\n`). -/
def splitLines : List Char → List (List Char)
  | [] => [[]]
  | c :: rest =>
    match splitLines rest with
    | [] => [[]]
    | l :: ls => if c = '\n' then [] :: l :: ls else (c :: l) :: ls

/-- Case-insensitive containment of a literal. -/
def containsCI (s w : String) : Bool :=
  strContains (lowerStr s) (lowerStr w)

/-- The words occur in order in the character list, with arbitrary gaps:
model of a regex `w1.*w2.*…` applied to one line. -/
def inOrder : List Char → List (List Char) → Bool
  | _, [] => true
  | cs, w :: ws =>
    match findDrop cs w with
    | some rest => inOrder rest ws
    | none => false

/-- Model of `/w1.*w2.*…/i.test msg`: some line of the lowercased message
contains the words in order (in JS `.` does not match a newline, so a
match never spans lines). -/
def regexLike (msg : String) (ws : List String) : Bool :=
  (splitLines (lowerStr msg).data).any fun l => inOrder l (ws.map String.data)

/-! ## Data model (`src/types/types.ts`) -/

/-- `TaskStatus.sessionState`. -/
inductive SessionState
  | initializing
  | running
  | completed
  | error
deriving DecidableEq, Repr

/-- `TaskStatus.currentAction.type`. -/
inductive ActionType
  | thinking
  | tool_executing
  | responding
deriving DecidableEq, Repr

/-- Tool-call record status. -/
inductive ToolStatus
  | pending
  | executing
  | completed
  | error
deriving DecidableEq, Repr

/-- Opaque argument map of a tool call. -/
abbrev ArgMap := List (String × String)

/-- One element of a `responseParts` value coming back from the tool
executor: a string, some other truthy part object (identified by a tag),
or a nullish entry. -/
inductive RPart
  | str (s : String)
  | obj (tag : Nat)
  | nullish
deriving DecidableEq, Repr

/-- One part of the outgoing message `Content`: a `{text: …}` part or an
opaque part object forwarded from a tool response. -/
inductive MsgPart
  | text (s : String)
  | opaquePart (tag : Nat)
deriving DecidableEq, Repr

/-- `TaskStatus.currentAction`. -/
structure CurrentAction where
  type : ActionType
  description : String
deriving DecidableEq, Repr

/-- `TaskStatus.llmStream`. -/
structure LlmStream where
  partialText : String
  isComplete : Bool
deriving DecidableEq, Repr

/-- `TaskStatus.finalResult`. -/
structure FinalResult where
  success : Bool
  outputPath : Option String := none
  summary : String
  error : Option String := none
deriving DecidableEq, Repr

/-- One entry of `TaskStatus.toolCalls`. -/
structure ToolCallRecord where
  callId : String
  name : String
  args : ArgMap
  status : ToolStatus
  startTime : Nat
  duration : Option Nat := none
  result : Option String := none
  error : Option String := none
  exportPath : Option String := none
  responseParts : Option (List RPart) := none
deriving DecidableEq, Repr

/-- `TaskStatus.progress`. -/
structure Progress where
  currentTurn : Nat
  maxTurns : Nat
  percentage : ℚ
deriving DecidableEq, Repr

/-- `TaskStatus` (the timestamp, refreshed on every mutation, is dropped:
wall-clock time is abstracted away). -/
structure TaskStatus where
  sessionId : String
  sessionState : SessionState
  progress : Progress
  currentAction : CurrentAction
  llmStream : Option LlmStream := none
  toolCalls : List ToolCallRecord
  finalResult : Option FinalResult := none
deriving DecidableEq, Repr

/-- `TaskRequest` (the fields the engine itself reads; the prompt and
configuration derived from the others are supplied by the environment). -/
structure TaskRequest where
  sessionId : String
  description : String
deriving DecidableEq, Repr

/-- `TaskResult.metadata`. -/
structure TaskMetadata where
  totalDuration : Nat
  turnCount : Nat
  toolCallCount : Nat
deriving DecidableEq, Repr

/-- `TaskResult`. -/
structure TaskResult where
  success : Bool
  sessionId : String
  outputPath : Option String := none
  executionSummary : String
  error : Option String := none
  metadata : TaskMetadata
deriving DecidableEq, Repr

/-! ## Model response chunks (`@google/genai` shapes, as the engine reads them) -/

/-- One part of a streamed response chunk. `thought`/`text` are `none` when
the key is absent; `otherKeys` counts further keys of the part object (for
the `Object.keys(part).length === 0` validity check). -/
structure RespPart where
  thought : Option Bool := none
  text : Option String := none
  otherKeys : Nat := 0
deriving DecidableEq, Repr

/-- `candidate.content`. -/
structure ContentC where
  parts : Option (List RespPart) := none
deriving DecidableEq, Repr

/-- One response candidate. -/
structure Candidate where
  content : Option ContentC := none
deriving DecidableEq, Repr

/-- A tool invocation request emitted by the model. -/
structure FunctionCall where
  id : Option String := none
  name : String
  args : Option ArgMap := none
deriving DecidableEq, Repr

/-- One streamed `GenerateContentResponse` chunk. -/
structure Chunk where
  candidates : Option (List Candidate) := none
  functionCalls : Option (List FunctionCall) := none
deriving DecidableEq, Repr

/-- Number of JS object keys of a part. -/
def partKeyCount (p : RespPart) : Nat :=
  (if p.thought.isSome then 1 else 0) + (if p.text.isSome then 1 else 0) + p.otherKeys

/-- Truthiness of `part.text` (absent or empty string is falsy). -/
def partTextTruthy (p : RespPart) : Bool :=
  match p.text with
  | some s => s ≠ ""
  | none => false

/-- `TaskEngine.isValidContent` (TaskEngine.ts:788): parts exist, are
non-empty, and no part is an empty object. -/
def isValidContent (c : ContentC) : Bool :=
  match c.parts with
  | none => false
  | some ps => ps ≠ [] && ps.all fun p => partKeyCount p ≠ 0

/-- `TaskEngine.isValidResponse` (TaskEngine.ts:776). -/
def isValidResponse (r : Chunk) : Bool :=
  match r.candidates with
  | none => false
  | some [] => false
  | some (c :: _) =>
    match c.content with
    | none => false
    | some ct => isValidContent ct

/-- `TaskEngine.getTextContent` (TaskEngine.ts:802): `none` models `null`.
Only the FIRST part's `thought` flag is consulted; afterwards every part
with truthy text is joined, thought-marked or not. -/
def getTextContent (r : Chunk) : Option String :=
  match r.candidates with
  | none => none
  | some [] => none
  | some (c :: _) =>
    match c.content with
    | none => none
    | some ct =>
      match ct.parts with
      | none => none
      | some [] => none
      | some (p0 :: rest) =>
        if p0.thought = some true then none
        else some (String.join ((p0 :: rest).filterMap fun p =>
          if partTextTruthy p then p.text else none))

/-! ## Error classification (TaskEngine.ts:733, 757, 247) -/

/-- The recoverable-error patterns of `isRecoverableError`, each regex
compiled to its in-order word list. -/
def recoverablePatterns : List (List String) :=
  [["token", "count", "exceeds", "maximum"],
   ["input", "token", "count", "exceeds"],
   ["context", "length", "exceeded"],
   ["request", "too", "large"],
   ["rate", "limit", "exceeded"],
   ["quota", "exceeded"],
   ["service", "temporarily", "unavailable"],
   ["timeout"],
   ["network", "error"],
   ["connection", "reset"],
   ["socket", "hang", "up"],
   ["econnreset"],
   ["enotfound"],
   ["econnrefused"],
   ["etimedout"],
   ["temporary", "failure"]]

/-- `TaskEngine.isRecoverableError` (TaskEngine.ts:733). -/
def isRecoverableError (errorMessage : String) : Bool :=
  recoverablePatterns.any fun ws => regexLike errorMessage ws

/-- Strip a leading `Error:` (case-insensitive) and following whitespace:
model of `errorMessage.replace(/^Error:\s*\x7d/i, '')` without the brace. -/
def stripErrorHead (s : String) : String :=
  if "error:".data.isPrefixOf (lowerStr s).data then
    String.mk ((s.data.drop 6).dropWhile Char.isWhitespace)
  else s

/-- The text up to the first newline: model of `split('\n')[0]`. -/
def firstLine (s : String) : String :=
  String.mk (s.data.takeWhile fun c => c ≠ '\n')

/-- `TaskEngine.formatErrorForLLM` (TaskEngine.ts:757). -/
def formatErrorForLLM (errorMessage : String) (turnCount : Nat) : String :=
  if regexLike errorMessage ["token", "count", "exceeds"] then
    "✕ [API Error: Token limit exceeded]\n\nConsider using smaller parameters (e.g., maxResults: \"50\" instead of \"0\") or processing data in chunks."
  else if regexLike errorMessage ["rate", "limit"] || regexLike errorMessage ["quota", "exceeded"] then
    "✕ [API Error: Rate/quota limit exceeded]\n\nTry using fewer API calls or wait before retrying."
  else if [["timeout"], ["network", "error"], ["connection"], ["socket", "hang", "up"],
           ["econnreset"], ["enotfound"], ["econnrefused"], ["etimedout"]].any
            (fun ws => regexLike errorMessage ws) then
    "✕ [Network Error: Connection issue detected]\n\nThis appears to be a temporary network problem. Retrying the same operation..."
  else
    "✕ [API Error: " ++ firstLine (stripErrorHead errorMessage) ++ "]"

/-- Result of the Strategy's `processToolResult`
(`TaskProcessingResult.extractedData.exportPath` and `finalResult`). -/
structure ProcessingResult where
  exportPath : Option String := none
  finalResult : Option FinalResult := none

/-- Shape of `toolResponse.responseParts`: absent (`undefined`), a single
non-array part, or an array of parts. -/
inductive RespPartsV
  | absent
  | single (p : RPart)
  | arr (ps : List RPart)
deriving DecidableEq, Repr

/-- Truthiness of `toolResponse.responseParts`. -/
def respPartsTruthy : RespPartsV → Bool
  | .absent => false
  | .single (.str s) => s ≠ ""
  | .single (.obj _) => true
  | .single .nullish => false
  | .arr _ => true

/-- `Array.isArray(x) ? x : [x]` normalization. -/
def normalizeParts : RespPartsV → List RPart
  | .absent => [.nullish]
  | .single p => [p]
  | .arr ps => ps

/-- The tool executor's structured answer (`ToolResponse`): the error's
message when it failed, the displayable result, and the feedback parts. -/
structure ToolResponse where
  error : Option String := none
  resultDisplay : Option String := none
  responseParts : RespPartsV := .absent

/-- A tool strategy (`TaskStrategy` of `src/types/interfaces.ts`), with each
regular expression of `getFatalErrorPatterns` modelled as its test
function. -/
structure Strategy where
  calculateProgress : List ToolCallRecord → Nat → ℚ
  isTaskComplete : List ToolCallRecord → Bool
  fatalErrorPatterns : List (String → Bool)
  processToolResult : ToolCallRecord → ToolResponse → ProcessingResult

/-- The built-in default fatal pattern
`/(ECONN|ETIMEDOUT|auth|permission|timeout|ECONNREFUSED)/i`. -/
def defaultFatalPattern (msg : String) : Bool :=
  ["econn", "etimedout", "auth", "permission", "timeout", "econnrefused"].any
    fun w => containsCI msg w

/-- `isFatalToolError` (TaskEngine.ts:248): the strategy's patterns when a
strategy is configured, the default pattern set otherwise. -/
def isFatalToolError (strat : Option Strategy) (msg : String) : Bool :=
  match strat with
  | some s => s.fatalErrorPatterns.any fun p => p msg
  | none => defaultFatalPattern msg

/-! ## Engine state and status publication -/

/-- Mutable engine state during one `executeTask` run: the instance field
`sessionTurnCount`, the engine-owned `currentStatus`, and the sequence of
snapshots delivered (synchronously, in order) to the status observer. -/
structure EngineSt where
  sessionTurnCount : Nat
  currentStatus : TaskStatus
  trace : List TaskStatus
deriving Repr

/-- `TaskEngine.updateStatus` (TaskEngine.ts:684): merge the partial update
(modelled as a function on the status), then publish the new snapshot. -/
def updateStatus (es : EngineSt) (f : TaskStatus → TaskStatus) : EngineSt :=
  let s := f es.currentStatus
  { es with currentStatus := s, trace := es.trace ++ [s] }

/-- A partial `ToolCallRecord` update: `some v` when the key is present in
the object-spread update (even with an `undefined` value, which the spread
writes through). -/
structure ToolUpdate where
  name : Option String := none
  args : Option ArgMap := none
  status : Option ToolStatus := none
  startTime : Option Nat := none
  duration : Option Nat := none
  error : Option String := none
  result : Option (Option String) := none
  exportPath : Option (Option String) := none
  responseParts : Option (Option (List RPart)) := none

/-- Object-spread merge `{...record, ...update}`. -/
def mergeToolCall (r : ToolCallRecord) (u : ToolUpdate) : ToolCallRecord :=
  { callId := r.callId
    name := u.name.getD r.name
    args := u.args.getD r.args
    status := u.status.getD r.status
    startTime := u.startTime.getD r.startTime
    duration := match u.duration with | some d => some d | none => r.duration
    result := u.result.getD r.result
    error := match u.error with | some e => some e | none => r.error
    exportPath := u.exportPath.getD r.exportPath
    responseParts := u.responseParts.getD r.responseParts }

/-- The fresh record pushed for an unknown callId (TaskEngine.ts:699),
before the update is spread over it; `Date.now()` abstracted as 0. -/
def newToolCall (callId : String) : ToolCallRecord :=
  { callId := callId, name := "", args := [], status := .pending, startTime := 0 }

/-- The ledger transformation of `TaskEngine.updateToolStatus`
(TaskEngine.ts:690): in-place merge at the first record with this callId,
else append a fresh record. -/
def updateToolStatus (ledger : List ToolCallRecord) (callId : String)
    (u : ToolUpdate) : List ToolCallRecord :=
  match ledger.findIdx? (fun c => c.callId == callId) with
  | some i => ledger.set i (mergeToolCall (ledger.getD i (newToolCall callId)) u)
  | none => ledger ++ [mergeToolCall (newToolCall callId) u]

/-- `TaskEngine.updateToolStatus` at the engine level: rewrite the ledger,
then publish via `updateStatus({})`. -/
def engineUpdateToolStatus (es : EngineSt) (callId : String) (u : ToolUpdate) :
    EngineSt :=
  updateStatus
    { es with currentStatus :=
        { es.currentStatus with
            toolCalls := updateToolStatus es.currentStatus.toolCalls callId u } }
    id

/-! ## Progress (TaskEngine.ts:712) -/

/-- JS `a || b` on numbers (0 is falsy). -/
def jsOrNat (n d : Nat) : Nat :=
  if n = 0 then d else n

/-- `TaskEngine.calculateProgress` (TaskEngine.ts:712), reading the current
status; `maxSessionTurns` is `config.getMaxSessionTurns()`. -/
def calculateProgress (strat : Option Strategy) (status : TaskStatus)
    (maxSessionTurns : Nat) : ℚ :=
  match strat with
  | some s => s.calculateProgress status.toolCalls status.progress.currentTurn
  | none =>
    let maxTurns := jsOrNat maxSessionTurns 50
    let turnProgress := min ((status.progress.currentTurn : ℚ) / (maxTurns : ℚ) * 95) 95
    match status.finalResult with
    | some fr => if fr.success then 100 else turnProgress
    | none => turnProgress

/-! ## Environment: the external collaborators, indexed by turn number -/

/-- `checkNextSpeaker`'s answer (possibly `null`). -/
structure NextSpeakerRes where
  next_speaker : String
  reasoning : Option String := none
deriving DecidableEq, Repr

/-- The collaborators' behavior for one `executeTask` run. `configResult`
bundles `buildConfiguration`/`initialize`/`refreshAuth`/registry access
(its payload is `getMaxSessionTurns()`), `promptResult` bundles
`getChat`/`buildPrompt` (payload: the initial prompt). `send`, `toolResult`
and `nextSpeaker` are keyed by the loop's `turnCount` (and the index of the
tool invocation within the turn). An `Except.error` models a thrown
exception (for `nextSpeaker` the exception's content is irrelevant). -/
structure Env where
  configResult : Except String Nat
  promptResult : Except String String
  send : Nat → Except String (List Chunk)
  toolResult : Nat → Nat → ToolResponse
  nextSpeaker : Nat → Except Unit (Option NextSpeakerRes)

/-- `MAX_TURNS` (TaskEngine.ts:39): the engine-wide hard turn ceiling. -/
def MAX_TURNS : Nat := 200

/-- Loop-carried state: the local `turnCount`, the parts of
`currentMessages[0]`, and the engine state. -/
structure LoopSt where
  turnCount : Nat
  msgParts : List MsgPart
  es : EngineSt

/-! ## Streaming phase (TaskEngine.ts:372) -/

/-- The accumulator of the `for await (const resp of responseStream)` loop. -/
structure StreamAcc where
  es : EngineSt
  hasStreamContent : Bool
  accumulatedText : String
  functionCalls : List FunctionCall

/-- Processing of one streamed chunk (TaskEngine.ts:375-406): skip invalid
chunks, append truthy text to the accumulator and publish an incremental
snapshot carrying the whole accumulator, collect tool invocations. -/
def streamStep (stc : Nat) (acc : StreamAcc) (resp : Chunk) : StreamAcc :=
  if !isValidResponse resp then acc
  else
    let acc1 :=
      match getTextContent resp with
      | some s =>
        if s ≠ "" then
          let newText := acc.accumulatedText ++ s
          { acc with
              hasStreamContent := true
              accumulatedText := newText
              es := updateStatus acc.es fun st =>
                { st with
                    currentAction := ⟨.responding, s!"Turn {stc} responding..."⟩,
                    llmStream := some ⟨newText, false⟩ } }
        else acc
      | none => acc
    match resp.functionCalls with
    | some fcs => { acc1 with functionCalls := acc1.functionCalls ++ fcs }
    | none => acc1

/-- The full stream consumption of one turn. -/
def streamPhase (stc : Nat) (es : EngineSt) (chunks : List Chunk) : StreamAcc :=
  chunks.foldl (streamStep stc) ⟨es, false, "", []⟩

/-- The end-of-stream status update (TaskEngine.ts:409): mark the stream
complete with the full accumulated text when any text was produced, else
clear the stream snapshot. -/
def postStreamUpdate (stc : Nat) (acc : StreamAcc) : EngineSt :=
  updateStatus acc.es fun st =>
    { st with
        currentAction :=
          if acc.functionCalls.length > 0 then
            ⟨.tool_executing, s!"Turn {stc} executing tools..."⟩
          else ⟨.responding, s!"Turn {stc} completed"⟩,
        llmStream :=
          if acc.hasStreamContent then some ⟨acc.accumulatedText, true⟩ else none }

/-! ## Tool dispatch (TaskEngine.ts:424) -/

/-- `fc.id ?? fc.name-Date.now()` with the clock abstracted as 0. -/
def toolCallId (fc : FunctionCall) : String :=
  match fc.id with
  | some i => i
  | none => fc.name ++ "-0"

/-- Outcome of processing one tool invocation: a fatal break out of the
task loop, or continuation with the grown feedback parts. -/
inductive ToolStepRes
  | brkFatal (errorMsg : String) (es : EngineSt)
  | cont (parts : List MsgPart) (es : EngineSt)

/-- Append the normalized feedback parts to the outgoing message
(TaskEngine.ts:529): strings become text parts, truthy objects pass
through, nullish entries are dropped. -/
def pushParts (parts : List MsgPart) (l : List RPart) : List MsgPart :=
  l.foldl
    (fun acc p =>
      match p with
      | .str s => acc ++ [MsgPart.text s]
      | .obj tag => acc ++ [MsgPart.opaquePart tag]
      | .nullish => acc)
    parts

/-- The formatted error message
`Error executing tool name: resultDisplay-or-message` (TaskEngine.ts:458). -/
def toolErrorMsg (fc : FunctionCall) (resp : ToolResponse) (emsg : String) : String :=
  "Error executing tool " ++ fc.name ++ ": " ++
    (match resp.resultDisplay with
     | some d => if d ≠ "" then d else emsg
     | none => emsg)

/-- Processing of one tool invocation (TaskEngine.ts:427-541): record the
`executing` transition, run the executor, then either the error branch
(record `error`, always push a TOOL_ERROR feedback fragment, break when
fatal) or the success branch (strategy post-processing, record `completed`,
push the response parts). `t` is the turn, `i` the index of the invocation
within the turn. -/
def runToolCall (strat : Option Strategy) (env : Env) (t i : Nat)
    (fc : FunctionCall) (es : EngineSt) (parts : List MsgPart) : ToolStepRes :=
  let callId := toolCallId fc
  let es1 := engineUpdateToolStatus es callId
    { name := some fc.name, args := some (fc.args.getD []),
      status := some .executing, startTime := some 0 }
  let resp := env.toolResult t i
  match resp.error with
  | some emsg =>
    let isToolNotFound := strContains emsg "not found in registry"
    let errorMsg := toolErrorMsg fc resp emsg
    let es2 := engineUpdateToolStatus es1 callId
      { status := some .error, error := some errorMsg, duration := some 0 }
    let parts2 := parts ++ [MsgPart.text ("TOOL_ERROR(" ++ fc.name ++ "): " ++ errorMsg)]
    if !isToolNotFound && isFatalToolError strat errorMsg then
      let es3 := updateStatus es2 fun st =>
        { st with
            sessionState := .error,
            finalResult := some
              { success := false, error := some errorMsg,
                summary := "Task failed due to fatal tool error" } }
      .brkFatal errorMsg es3
    else
      .cont parts2 es2
  | none =>
    let pr :=
      match strat with
      | some s =>
        some (s.processToolResult
          { callId := callId, name := fc.name, args := fc.args.getD [],
            status := .completed, startTime := 0 }
          resp)
      | none => none
    let exportPath : Option String :=
      match pr with
      | some p =>
        match p.exportPath with
        | some e => if e ≠ "" then some e else none
        | none => none
      | none => none
    let es2 :=
      match pr with
      | some p =>
        match p.finalResult with
        | some fr => updateStatus es1 fun st => { st with finalResult := some fr }
        | none => es1
      | none => es1
    let es3 := engineUpdateToolStatus es2 callId
      { status := some .completed, duration := some 0,
        exportPath := some exportPath,
        result := some
          (match resp.resultDisplay with
           | some d => if d ≠ "" then some d else none
           | none => none),
        responseParts := some (some (normalizeParts resp.responseParts)) }
    let parts2 :=
      if respPartsTruthy resp.responseParts then
        pushParts parts (normalizeParts resp.responseParts)
      else parts
    .cont parts2 es3

/-- Outcome of the whole tool-dispatch phase of a turn. -/
inductive ToolsOut
  | fatal (errorMsg : String) (es : EngineSt)
  | done (parts : List MsgPart) (es : EngineSt)

/-- The `for (const fc of functionCalls)` loop (TaskEngine.ts:427). -/
def runToolCalls (strat : Option Strategy) (env : Env) (t : Nat) :
    Nat → List FunctionCall → EngineSt → List MsgPart → ToolsOut
  | _, [], es, parts => .done parts es
  | i, fc :: rest, es, parts =>
    match runToolCall strat env t i fc es parts with
    | .brkFatal msg es2 => .fatal msg es2
    | .cont parts2 es2 => runToolCalls strat env t (i + 1) rest es2 parts2

/-! ## Continuation decision (TaskEngine.ts:544) -/

/-- Outcome of one turn of the task loop: break out of `taskLoop` with the
values of `finalSuccess`/`executionError`, or continue with the next
loop state. -/
inductive StepRes
  | brk (finalSuccess : Bool) (executionError : Option String) (es : EngineSt)
  | next (st : LoopSt)

/-- The completion check of TaskEngine.ts:549-551: the strategy's
`isTaskComplete` over the ledger; no configured strategy means not
complete. -/
def strategyComplete (strat : Option Strategy) (toolCalls : List ToolCallRecord) :
    Bool :=
  match strat with
  | some s => s.isTaskComplete toolCalls
  | none => false

/-- The no-tool-calls branch (TaskEngine.ts:544-630): strategy completion
check, then the continuation oracle; an oracle failure and a non-model
answer take the same failure path. -/
def noToolPhase (strat : Option Strategy) (env : Env) (t stc : Nat)
    (es : EngineSt) : StepRes :=
  let isCompleted := strategyComplete strat es.currentStatus.toolCalls
  if isCompleted then
    let es1 := updateStatus es fun st =>
      { st with
          sessionState := .completed,
          progress := { st.progress with percentage := 100 } }
    .brk true none es1
  else
    let es1 := updateStatus es fun st =>
      { st with currentAction :=
          ⟨.thinking, "Determining if conversation should continue..."⟩ }
    let failOut : StepRes :=
      let es2 := updateStatus es1 fun st =>
        { st with
            sessionState := .error,
            finalResult := some
              { success := false,
                error := some "Task failed: Task was not completed successfully.",
                summary := "Task failed: Task was not completed successfully" } }
      .brk false (some "Task failed: Task was not completed successfully.") es2
    match env.nextSpeaker t with
    | .ok r =>
      if (match r with
          | some nsr => nsr.next_speaker == "model"
          | none => false) then
        let es2 := updateStatus es1 fun st =>
          { st with currentAction := ⟨.thinking, "Continuing conversation..."⟩ }
        .next { turnCount := t, msgParts := [MsgPart.text "Please continue."], es := es2 }
      else failOut
    | .error _ => failOut

/-! ## The task loop (TaskEngine.ts:285) -/

/-- The soft-limit and hard-limit messages and the turn-top status update
live in `loopIter`; `turnTopEs` is the state right after that first
`updateStatus` of the turn (TaskEngine.ts:305). -/
def turnTopEs (strat : Option Strategy) (cfg : Nat) (st : LoopSt) : EngineSt :=
  let es0 := { st.es with sessionTurnCount := st.es.sessionTurnCount + 1 }
  updateStatus es0 fun s =>
    { s with
        currentAction := ⟨.thinking, s!"Turn {es0.sessionTurnCount} thinking..."⟩,
        progress :=
          { currentTurn := es0.sessionTurnCount,
            maxTurns := min (jsOrNat cfg 50) MAX_TURNS,
            percentage := calculateProgress strat s cfg },
        llmStream := none }

/-- One iteration of `taskLoop` (TaskEngine.ts:285-630). `cfg` is
`config.getMaxSessionTurns()`. A non-recoverable `send` failure is the
rethrow caught by the outer catch (TaskEngine.ts:632), which records the
message as `executionError` and leaves the loop. -/
def loopIter (strat : Option Strategy) (env : Env) (cfg : Nat) (st : LoopSt) :
    StepRes :=
  let t := st.turnCount + 1
  let stc := st.es.sessionTurnCount + 1
  let esL := { st.es with sessionTurnCount := stc }
  if cfg > 0 ∧ stc > cfg then
    .brk false (some "Reached max session turns for this session.") esL
  else if t > MAX_TURNS then
    .brk false (some s!"Reached hard turn limit ({MAX_TURNS}).") esL
  else
    let es1 := turnTopEs strat cfg st
    match env.send t with
    | .error msg =>
      if isRecoverableError msg then
        let errorFeedback := formatErrorForLLM msg t
        let es2 := updateStatus es1 fun s =>
          { s with
              currentAction := ⟨.thinking, s!"Turn {stc} - handling API error..."⟩,
              llmStream := some ⟨errorFeedback, true⟩ }
        .next { turnCount := t, msgParts := [MsgPart.text errorFeedback], es := es2 }
      else
        .brk false (some msg) es1
    | .ok chunks =>
      let acc := streamPhase stc es1 chunks
      let es2 := postStreamUpdate stc acc
      if acc.functionCalls.length > 0 then
        match runToolCalls strat env t 0 acc.functionCalls es2 [] with
        | .fatal emsg esF => .brk false (some emsg) esF
        | .done parts esD => .next { turnCount := t, msgParts := parts, es := esD }
      else
        noToolPhase strat env t stc es2

/-- The outcome of the whole `taskLoop`. -/
structure LoopOut where
  finalSuccess : Bool
  executionError : Option String
  es : EngineSt

/-- The `taskLoop: while (true)` loop, fuelled. The hard turn ceiling
bounds the iterations by `MAX_TURNS + 1`, so running with that much fuel is
exact and the zero-fuel fallback is dead code (`taskLoop_fuel_stable`). -/
def taskLoop (strat : Option Strategy) (env : Env) (cfg : Nat) :
    Nat → LoopSt → LoopOut
  | 0, st => ⟨false, some "fuel exhausted (unreachable)", st.es⟩
  | f + 1, st =>
    match loopIter strat env cfg st with
    | .brk ok err es => ⟨ok, err, es⟩
    | .next st2 => taskLoop strat env cfg f st2

/-! ## Result assembly and the entry point (TaskEngine.ts:204, 246, 663) -/

/-- JS `a || b` on an optional string (empty string is falsy). -/
def jsOrStr (a : Option String) (d : String) : String :=
  match a with
  | some s => if s = "" then d else s
  | none => d

/-- The final `TaskResult` assembly (TaskEngine.ts:663-675). -/
def buildFinalResult (req : TaskRequest) (out : LoopOut) : TaskResult :=
  { success := out.finalSuccess
    sessionId := req.sessionId
    outputPath :=
      match out.es.currentStatus.finalResult with
      | some fr => fr.outputPath
      | none => none
    executionSummary :=
      jsOrStr out.executionError
        (jsOrStr
          (match out.es.currentStatus.finalResult with
           | some fr => some fr.summary
           | none => none)
          "Task execution completed")
    error := out.executionError
    metadata :=
      { totalDuration := 0
        turnCount := out.es.sessionTurnCount
        toolCallCount := out.es.currentStatus.toolCalls.length } }

/-- `TaskEngine.executeTaskInternal` (TaskEngine.ts:246-679). A thrown
setup exception (`Except.error`) carries the engine state at the throw
point, for the caller's catch block. -/
def executeTaskInternal (strat : Option Strategy) (env : Env) (req : TaskRequest)
    (es : EngineSt) : Except (String × EngineSt) (TaskResult × EngineSt) :=
  match env.configResult with
  | .error msg => .error (msg, es)
  | .ok cfg =>
    let es1 := updateStatus es fun s =>
      { s with
          sessionState := .running,
          currentAction := ⟨.thinking, "Starting task execution..."⟩ }
    match env.promptResult with
    | .error msg => .error (msg, es1)
    | .ok initialPrompt =>
      let st0 : LoopSt :=
        { turnCount := 0, msgParts := [MsgPart.text initialPrompt], es := es1 }
      let out := taskLoop strat env cfg (MAX_TURNS + 1) st0
      .ok (buildFinalResult req out, out.es)

/-- The engine state that persists across `executeTask` calls on the same
engine instance: the `sessionTurnCount` field (never reset) and, for the
observer, the full snapshot trace. -/
structure EnginePersist where
  sessionTurnCount : Nat
  trace : List TaskStatus
deriving Repr

/-- The fresh per-run `TaskStatus` built at the top of `executeTask`
(TaskEngine.ts:208). -/
def initialStatus (req : TaskRequest) : TaskStatus :=
  { sessionId := req.sessionId
    sessionState := .initializing
    progress := { currentTurn := 0, maxTurns := 50, percentage := 0 }
    currentAction := ⟨.thinking, "Initializing..."⟩
    toolCalls := [] }

/-- `TaskEngine.executeTask` (TaskEngine.ts:204-244): initialize a fresh
status, publish it, run the internal routine, and convert any escaped
exception into a failed `TaskResult`. -/
def executeTask (strat : Option Strategy) (env : Env) (req : TaskRequest)
    (p : EnginePersist) : TaskResult × EnginePersist :=
  let es0 : EngineSt :=
    { sessionTurnCount := p.sessionTurnCount, currentStatus := initialStatus req,
      trace := p.trace }
  let es1 := updateStatus es0 id
  match executeTaskInternal strat env req es1 with
  | .ok (res, esF) => (res, ⟨esF.sessionTurnCount, esF.trace⟩)
  | .error (msg, esE) =>
    let esE2 := updateStatus esE fun s =>
      { s with
          sessionState := .error,
          finalResult := some
            { success := false, error := some msg,
              summary := "Task execution failed: " ++ msg } }
    ({ success := false
       sessionId := req.sessionId
       executionSummary := "Error occurred during execution"
       error := some msg
       metadata :=
         { totalDuration := 0
           turnCount := esE2.currentStatus.progress.currentTurn
           toolCallCount := esE2.currentStatus.toolCalls.length } },
     ⟨esE2.sessionTurnCount, esE2.trace⟩)

/-! ## Lemmas about the tool-call ledger -/

theorem mergeToolCall_callId (r : ToolCallRecord) (u : ToolUpdate) :
    (mergeToolCall r u).callId = r.callId := rfl

theorem updateToolStatus_cons (r : ToolCallRecord) (rest : List ToolCallRecord)
    (callId : String) (u : ToolUpdate) :
    updateToolStatus (r :: rest) callId u =
      if r.callId = callId then mergeToolCall r u :: rest
      else r :: updateToolStatus rest callId u := by
  unfold updateToolStatus
  rw [List.findIdx?_cons]
  by_cases h : r.callId = callId
  · simp [h]
  · simp only [h, beq_iff_eq, if_false, if_neg h, List.findIdx?_succ]
    cases hfi : rest.findIdx? (fun c => c.callId == callId) with
    | none => simp [hfi]
    | some i => simp [hfi, List.set_cons_succ, List.getD_cons_succ]

theorem updateToolStatus_nil (callId : String) (u : ToolUpdate) :
    updateToolStatus [] callId u = [mergeToolCall (newToolCall callId) u] := rfl

/-- When no record carries the callId, `updateToolStatus` appends one
fresh record and does nothing else. -/
theorem updateToolStatus_absent (ledger : List ToolCallRecord) (callId : String)
    (u : ToolUpdate) (h : ∀ r ∈ ledger, r.callId ≠ callId) :
    updateToolStatus ledger callId u =
      ledger ++ [mergeToolCall (newToolCall callId) u] := by
  induction ledger with
  | nil => rfl
  | cons r rest ih =>
    rw [updateToolStatus_cons, if_neg (h r (by simp))]
    rw [ih fun x hx => h x (by simp [hx])]
    rfl

/-- When some record carries the callId, `updateToolStatus` merges the
update into the first such record in place (`List.set` at its index) and
touches nothing else. -/
theorem updateToolStatus_present (ledger : List ToolCallRecord) (callId : String)
    (u : ToolUpdate) (h : ∃ r ∈ ledger, r.callId = callId) :
    ∃ i r, ledger.get? i = some r ∧ r.callId = callId ∧
      (∀ j rj, j < i → ledger.get? j = some rj → rj.callId ≠ callId) ∧
      updateToolStatus ledger callId u = ledger.set i (mergeToolCall r u) := by
  induction ledger with
  | nil => simp at h
  | cons r rest ih =>
    rw [updateToolStatus_cons]
    by_cases hr : r.callId = callId
    · exact ⟨0, r, rfl, hr, by omega, by simp [hr]⟩
    · obtain ⟨x, hx, hcx⟩ := h
      rcases List.mem_cons.mp hx with rfl | hx2
      · exact absurd hcx hr
      · obtain ⟨i, y, hy, hcy, hmin, heq⟩ := ih ⟨x, hx2, hcx⟩
        refine ⟨i + 1, y, by simpa using hy, hcy, ?_, by simp [hr, heq]⟩
        intro j rj hj hget
        cases j with
        | zero =>
          have hrr : r = rj := by simpa using hget
          rw [← hrr]
          exact hr
        | succ j2 =>
          exact hmin j2 rj (by omega) (by simpa using hget)

/-- `updateToolStatus` never changes the callId sequence except by
appending a fresh callId at the end, and it appends exactly when the
callId is absent. -/
theorem updateToolStatus_callIds (ledger : List ToolCallRecord) (callId : String)
    (u : ToolUpdate) :
    ((∃ r ∈ ledger, r.callId = callId) ∧
      (updateToolStatus ledger callId u).map ToolCallRecord.callId =
        ledger.map ToolCallRecord.callId) ∨
    ((∀ r ∈ ledger, r.callId ≠ callId) ∧
      (updateToolStatus ledger callId u).map ToolCallRecord.callId =
        ledger.map ToolCallRecord.callId ++ [callId]) := by
  induction ledger with
  | nil => right; exact ⟨by simp, rfl⟩
  | cons r rest ih =>
    rw [updateToolStatus_cons]
    by_cases hr : r.callId = callId
    · left
      exact ⟨⟨r, by simp, hr⟩, by simp [hr, mergeToolCall_callId]⟩
    · rcases ih with ⟨⟨x, hx, hcx⟩, h⟩ | ⟨hall, h⟩
      · left
        exact ⟨⟨x, by simp [hx], hcx⟩, by simp [hr, h]⟩
      · right
        refine ⟨?_, by simp [hr, h]⟩
        intro x hx
        rcases List.mem_cons.mp hx with rfl | hx2
        · exact hr
        · exact hall x hx2

/-- C9: an update for a callId already in the ledger merges into the first
record carrying it, in place (`List.set`), preserving the number, the order
and the callIds of the records; a fresh record is appended exactly when the
callId is absent; and distinctness of callIds is preserved, so the ledger
keeps at most one record per callId. -/
theorem claim_C9 (ledger : List ToolCallRecord) (callId : String) (u : ToolUpdate)
    (hnodup : (ledger.map ToolCallRecord.callId).Nodup) :
    ((∃ r ∈ ledger, r.callId = callId) →
      ∃ i r, ledger.get? i = some r ∧ r.callId = callId ∧
        updateToolStatus ledger callId u = ledger.set i (mergeToolCall r u) ∧
        (updateToolStatus ledger callId u).map ToolCallRecord.callId =
          ledger.map ToolCallRecord.callId ∧
        (updateToolStatus ledger callId u).length = ledger.length) ∧
    ((∀ r ∈ ledger, r.callId ≠ callId) →
      updateToolStatus ledger callId u =
        ledger ++ [mergeToolCall (newToolCall callId) u]) ∧
    ((updateToolStatus ledger callId u).map ToolCallRecord.callId).Nodup := by
  refine ⟨?_, updateToolStatus_absent ledger callId u, ?_⟩
  · intro h
    obtain ⟨i, r, hget, hcid, _, heq⟩ := updateToolStatus_present ledger callId u h
    have hmap : (updateToolStatus ledger callId u).map ToolCallRecord.callId =
        ledger.map ToolCallRecord.callId := by
      rcases updateToolStatus_callIds ledger callId u with ⟨_, hm⟩ | ⟨hall, _⟩
      · exact hm
      · obtain ⟨x, hx, hcx⟩ := h
        exact absurd hcx (hall x hx)
    refine ⟨i, r, hget, hcid, heq, hmap, ?_⟩
    have := congrArg List.length hmap
    simpa using this
  · rcases updateToolStatus_callIds ledger callId u with ⟨_, hm⟩ | ⟨hall, hm⟩
    · rw [hm]; exact hnodup
    · rw [hm]
      refine List.Nodup.append hnodup (by simp) ?_
      intro x hx hx2
      simp only [List.mem_singleton] at hx2
      subst hx2
      obtain ⟨r, hr, hcr⟩ := List.mem_map.mp hx
      exact hall r hr hcr

/-- Concrete instantiation of `claim_C9` at a two-record ledger. -/
def ledgerW : List ToolCallRecord :=
  [{ callId := "a", name := "initialize", args := [], status := .completed, startTime := 0 },
   { callId := "b", name := "process", args := [], status := .executing, startTime := 0 }]

theorem claim_C9_witness :
    ((ledgerW.map ToolCallRecord.callId).Nodup) ∧
    (((∃ r ∈ ledgerW, r.callId = "b") →
      ∃ i r, ledgerW.get? i = some r ∧ r.callId = "b" ∧
        updateToolStatus ledgerW "b" { status := some .completed } =
          ledgerW.set i (mergeToolCall r { status := some .completed }) ∧
        (updateToolStatus ledgerW "b" { status := some .completed }).map ToolCallRecord.callId =
          ledgerW.map ToolCallRecord.callId ∧
        (updateToolStatus ledgerW "b" { status := some .completed }).length = ledgerW.length) ∧
    ((∀ r ∈ ledgerW, r.callId ≠ "b") →
      updateToolStatus ledgerW "b" { status := some .completed } =
        ledgerW ++ [mergeToolCall (newToolCall "b") { status := some .completed }]) ∧
    ((updateToolStatus ledgerW "b" { status := some .completed }).map ToolCallRecord.callId).Nodup) :=
  ⟨by decide, claim_C9 ledgerW "b" { status := some .completed } (by decide)⟩

/-! ## Streaming: thought filtering (C7) and accumulation (C6) -/

/-- A chunk with one candidate carrying the given parts. -/
def chunkOfParts (ps : List RespPart) (fcs : Option (List FunctionCall)) : Chunk :=
  { candidates := some [{ content := some { parts := some ps } }], functionCalls := fcs }

/-- The text a chunk contributes to the turn accumulator: nothing for an
invalid chunk, the extracted text otherwise (`null` contributes nothing). -/
def chunkText (c : Chunk) : String :=
  if isValidResponse c then (getTextContent c).getD "" else ""

/-- Spec-side description of the running accumulator: the concatenation, in
delivery order, of the text contributed by the chunks, after the prefix
already accumulated. -/
def specTextFrom (pre : String) : List Chunk → String
  | [] => pre
  | c :: rest => specTextFrom (pre ++ chunkText c) rest

/-- Spec-side description of the incremental stream snapshots published
while consuming the chunks: one snapshot per chunk with a non-empty text
contribution, carrying the ENTIRE text accumulated up to and including that
chunk (never only the delta). -/
def specIncrementalTexts (pre : String) : List Chunk → List String
  | [] => []
  | c :: rest =>
    if chunkText c ≠ "" then
      (pre ++ chunkText c) :: specIncrementalTexts (pre ++ chunkText c) rest
    else specIncrementalTexts (pre ++ chunkText c) rest

theorem chunkText_of_invalid (c : Chunk) (h : isValidResponse c = false) :
    chunkText c = "" := by
  simp [chunkText, h]

/-- The one-step unfolding of the stream fold. -/
theorem streamPhase_eq_foldl (stc : Nat) (es : EngineSt) (chunks : List Chunk) :
    streamPhase stc es chunks = chunks.foldl (streamStep stc) ⟨es, false, "", []⟩ := rfl

theorem chunkText_of_text (c : Chunk) (s : String) (hv : isValidResponse c = true)
    (hg : getTextContent c = some s) : chunkText c = s := by
  simp [chunkText, hv, hg]

theorem chunkText_of_none (c : Chunk) (hg : getTextContent c = none) :
    chunkText c = "" := by
  simp [chunkText, hg]

/-- The running invariant of the `for await` stream loop: the accumulator
always holds the whole text contributed so far, every published snapshot
holds the whole text accumulated at its publication point, and
`hasStreamContent` records whether any chunk contributed text. -/
theorem streamFold_spec (stc : Nat) (chunks : List Chunk) : ∀ acc : StreamAcc,
    (chunks.foldl (streamStep stc) acc).accumulatedText =
      specTextFrom acc.accumulatedText chunks ∧
    (chunks.foldl (streamStep stc) acc).es.trace.map (fun s => s.llmStream) =
      acc.es.trace.map (fun s => s.llmStream) ++
        (specIncrementalTexts acc.accumulatedText chunks).map
          (fun t => some ⟨t, false⟩) ∧
    (chunks.foldl (streamStep stc) acc).hasStreamContent =
      (acc.hasStreamContent || chunks.any fun c => chunkText c ≠ "") := by
  induction chunks with
  | nil => intro acc; simp [specTextFrom, specIncrementalTexts]
  | cons c rest ih =>
    intro acc
    rw [List.foldl_cons]
    by_cases hv : isValidResponse c
    · cases hg : getTextContent c with
      | none =>
        have ht : chunkText c = "" := chunkText_of_none c hg
        have hstep : streamStep stc acc c =
            (match c.functionCalls with
             | some fcs => { acc with functionCalls := acc.functionCalls ++ fcs }
             | none => acc) := by
          simp [streamStep, hv, hg]
        cases hfc : c.functionCalls with
        | none =>
          rw [hstep, hfc]
          obtain ⟨h1, h2, h3⟩ := ih acc
          exact ⟨by simpa [specTextFrom, ht] using h1,
            by simpa [specIncrementalTexts, ht] using h2,
            by simpa [ht] using h3⟩
        | some fcs =>
          rw [hstep, hfc]
          obtain ⟨h1, h2, h3⟩ := ih { acc with functionCalls := acc.functionCalls ++ fcs }
          exact ⟨by simpa [specTextFrom, ht] using h1,
            by simpa [specIncrementalTexts, ht] using h2,
            by simpa [ht] using h3⟩
      | some s =>
        by_cases hs : s = ""
        · subst hs
          have ht : chunkText c = "" := by simp [chunkText, hv, hg]
          have hstep : streamStep stc acc c =
              (match c.functionCalls with
               | some fcs => { acc with functionCalls := acc.functionCalls ++ fcs }
               | none => acc) := by
            simp [streamStep, hv, hg]
          cases hfc : c.functionCalls with
          | none =>
            rw [hstep, hfc]
            obtain ⟨h1, h2, h3⟩ := ih acc
            exact ⟨by simpa [specTextFrom, ht] using h1,
              by simpa [specIncrementalTexts, ht] using h2,
              by simpa [ht] using h3⟩
          | some fcs =>
            rw [hstep, hfc]
            obtain ⟨h1, h2, h3⟩ := ih { acc with functionCalls := acc.functionCalls ++ fcs }
            exact ⟨by simpa [specTextFrom, ht] using h1,
              by simpa [specIncrementalTexts, ht] using h2,
              by simpa [ht] using h3⟩
        · have ht : chunkText c = s := chunkText_of_text c s hv hg
          have ht2 : chunkText c ≠ "" := by rw [ht]; exact hs
          set acc1 : StreamAcc :=
            { acc with
                hasStreamContent := true
                accumulatedText := acc.accumulatedText ++ s
                es := updateStatus acc.es fun st =>
                  { st with
                      currentAction := ⟨.responding, s!"Turn {stc} responding..."⟩,
                      llmStream := some ⟨acc.accumulatedText ++ s, false⟩ } } with hacc1
          have hstep : streamStep stc acc c =
              (match c.functionCalls with
               | some fcs => { acc1 with functionCalls := acc1.functionCalls ++ fcs }
               | none => acc1) := by
            simp [streamStep, hv, hg, hs, hacc1]
          cases hfc : c.functionCalls with
          | none =>
            rw [hstep, hfc]
            obtain ⟨h1, h2, h3⟩ := ih acc1
            refine ⟨by simpa [specTextFrom, ht, hacc1] using h1, ?_,
              by simpa [ht2, hacc1] using h3⟩
            rw [h2]
            simp [hacc1, updateStatus, specIncrementalTexts, ht, hs]
          | some fcs =>
            rw [hstep, hfc]
            obtain ⟨h1, h2, h3⟩ := ih { acc1 with functionCalls := acc1.functionCalls ++ fcs }
            refine ⟨by simpa [specTextFrom, ht, hacc1] using h1, ?_,
              by simpa [ht2, hacc1] using h3⟩
            rw [h2]
            simp [hacc1, updateStatus, specIncrementalTexts, ht, hs]
    · have hv2 : isValidResponse c = false := by simpa using hv
      have ht : chunkText c = "" := chunkText_of_invalid c hv2
      have hstep : streamStep stc acc c = acc := by simp [streamStep, hv2]
      rw [hstep]
      obtain ⟨h1, h2, h3⟩ := ih acc
      exact ⟨by simpa [specTextFrom, ht] using h1,
        by simpa [specIncrementalTexts, ht] using h2,
        by simpa [ht] using h3⟩

/-- C6: while streaming one turn, invalid chunks contribute nothing and
raise no error (`chunkText` of an invalid chunk is empty and no snapshot is
published for it, by definition of `specIncrementalTexts`); the turn
accumulator is the concatenation, in delivery order, of the text extracted
from the valid chunks; every published incremental snapshot is
`isComplete = false` and carries the entire text accumulated so far, never
only the latest delta; and after the stream ends exactly one final
`isComplete = true` snapshot with the complete text is published when any
text was produced, and a cleared stream snapshot otherwise. -/
theorem claim_C6 (stc : Nat) (es : EngineSt) (chunks : List Chunk) :
    (streamPhase stc es chunks).accumulatedText = specTextFrom "" chunks ∧
    (streamPhase stc es chunks).es.trace.map (fun s => s.llmStream) =
      es.trace.map (fun s => s.llmStream) ++
        (specIncrementalTexts "" chunks).map (fun t => some ⟨t, false⟩) ∧
    (streamPhase stc es chunks).hasStreamContent =
      (chunks.any fun c => chunkText c ≠ "") ∧
    (postStreamUpdate stc (streamPhase stc es chunks)).trace.map
        (fun s => s.llmStream) =
      (streamPhase stc es chunks).es.trace.map (fun s => s.llmStream) ++
        [if chunks.any (fun c => chunkText c ≠ "") then
            some ⟨specTextFrom "" chunks, true⟩
          else none] := by
  obtain ⟨h1, h2, h3⟩ := streamFold_spec stc chunks ⟨es, false, "", []⟩
  rw [streamPhase_eq_foldl]
  refine ⟨h1, by simpa using h2, by simpa using h3, ?_⟩
  simp only [postStreamUpdate, updateStatus, List.map_append]
  rw [h1, h3]
  simp

/-! ## C7: thought-fragment filtering -/

/-- C7 (amended): the thought filter consults only the FIRST fragment of a
chunk. When the first fragment carries the thought mark the whole chunk is
dropped (even its fragments not marked as thought); otherwise every
fragment with truthy text is surfaced, including fragments at later
positions that DO carry the thought mark. -/
theorem claim_C7 (p0 : RespPart) (rest : List RespPart)
    (fcs : Option (List FunctionCall)) :
    (p0.thought = some true →
      getTextContent (chunkOfParts (p0 :: rest) fcs) = none) ∧
    (p0.thought ≠ some true →
      getTextContent (chunkOfParts (p0 :: rest) fcs) =
        some (String.join ((p0 :: rest).filterMap fun p =>
          if partTextTruthy p then p.text else none))) := by
  constructor
  · intro h
    simp [chunkOfParts, getTextContent, h]
  · intro h
    simp [chunkOfParts, getTextContent, h]

theorem claim_C7_witness :
    getTextContent (chunkOfParts
        [{ thought := some true, text := some "hidden" },
         { text := some "visible" }] none) = none ∧
    getTextContent (chunkOfParts
        [{ text := some "a" },
         { thought := some true, text := some "secret" }] none) =
      some (String.join
        ([({ text := some "a" } : RespPart),
          { thought := some true, text := some "secret" }].filterMap fun p =>
          if partTextTruthy p then p.text else none)) :=
  ⟨(claim_C7 { thought := some true, text := some "hidden" }
      [{ text := some "visible" }] none).1 rfl,
   (claim_C7 { text := some "a" }
      [{ thought := some true, text := some "secret" }] none).2 (by decide)⟩

/-- The chunk refuting C7 as stated: its first part is plain text, its
second part is marked as the model's internal reasoning and carries text. -/
def thoughtChunk : Chunk :=
  chunkOfParts [{ text := some "a" }, { thought := some true, text := some "secret" }] none

/-- C7 as stated is false: streaming this single chunk puts the
thought-marked fragment's text into the turn accumulator and into the
published incremental snapshot, and conversely a chunk whose first part is
a thought suppresses the plain text fragment of the same chunk. -/
theorem claim_C7_counterexample :
    getTextContent thoughtChunk = some "asecret" ∧
    (streamPhase 1 ⟨0, initialStatus ⟨"s", "d"⟩, []⟩ [thoughtChunk]).accumulatedText =
      "asecret" ∧
    (streamPhase 1 ⟨0, initialStatus ⟨"s", "d"⟩, []⟩ [thoughtChunk]).es.trace.map
        (fun s => s.llmStream) = [some ⟨"asecret", false⟩] ∧
    strContains "asecret" "secret" = true ∧
    getTextContent (chunkOfParts
        [{ thought := some true, text := some "hidden" },
         { text := some "visible" }] none) = none := by
  refine ⟨rfl, rfl, rfl, by decide, rfl⟩

/-! ## C5: transport/API-level error classification -/

/-- C5: when `sendMessageStream` throws, the engine continues the loop with
a synthesized feedback message describing the error category exactly when
the message matches the recoverability patterns, and in that case the
ToolCallRecord ledger is unchanged; a non-matching error terminates the
task as a failure carrying that error. -/
theorem claim_C5 (strat : Option Strategy) (env : Env) (cfg f : Nat)
    (st : LoopSt) (msg : String) (req : TaskRequest)
    (hsend : env.send (st.turnCount + 1) = .error msg)
    (hsoft : ¬(cfg > 0 ∧ st.es.sessionTurnCount + 1 > cfg))
    (hhard : ¬(st.turnCount + 1 > MAX_TURNS)) :
    (isRecoverableError msg = true →
      taskLoop strat env cfg (f + 1) st =
        taskLoop strat env cfg f
          { turnCount := st.turnCount + 1,
            msgParts := [MsgPart.text (formatErrorForLLM msg (st.turnCount + 1))],
            es := updateStatus (turnTopEs strat cfg st) fun s =>
              { s with
                  currentAction :=
                    ⟨.thinking,
                     s!"Turn {st.es.sessionTurnCount + 1} - handling API error..."⟩,
                  llmStream :=
                    some ⟨formatErrorForLLM msg (st.turnCount + 1), true⟩ } } ∧
      (updateStatus (turnTopEs strat cfg st) fun s =>
          { s with
              currentAction :=
                ⟨.thinking,
                 s!"Turn {st.es.sessionTurnCount + 1} - handling API error..."⟩,
              llmStream :=
                some ⟨formatErrorForLLM msg (st.turnCount + 1), true⟩ }
        ).currentStatus.toolCalls = st.es.currentStatus.toolCalls) ∧
    (isRecoverableError msg = false →
      taskLoop strat env cfg (f + 1) st = ⟨false, some msg, turnTopEs strat cfg st⟩ ∧
      (buildFinalResult req (taskLoop strat env cfg (f + 1) st)).success = false ∧
      (buildFinalResult req (taskLoop strat env cfg (f + 1) st)).error = some msg) := by
  constructor
  · intro hrec
    constructor
    · simp only [taskLoop, loopIter, hsend, hrec]
      rw [if_neg hsoft, if_neg hhard]
      simp
    · simp [updateStatus, turnTopEs]
  · intro hrec
    have hbrk : taskLoop strat env cfg (f + 1) st =
        ⟨false, some msg, turnTopEs strat cfg st⟩ := by
      simp only [taskLoop, loopIter, hsend, hrec]
      rw [if_neg hsoft, if_neg hhard]
      simp
    exact ⟨hbrk, by rw [hbrk]; rfl, by rw [hbrk]; rfl⟩

/-- Concrete loop state for witnesses of the loop-level theorems. -/
def esWit : EngineSt := ⟨0, initialStatus ⟨"s", "d"⟩, []⟩

/-- Concrete loop state for witnesses of the loop-level theorems. -/
def stWit : LoopSt := ⟨0, [MsgPart.text "p"], esWit⟩

/-- Environment whose model session throws a recoverable error. -/
def envRec : Env :=
  { configResult := .ok 0, promptResult := .ok "p",
    send := fun _ => .error "Request timeout", toolResult := fun _ _ => {},
    nextSpeaker := fun _ => .ok none }

/-- Environment whose model session throws a non-recoverable error. -/
def envFatal : Env :=
  { envRec with send := fun _ => .error "boom" }

theorem claim_C5_witness :
    (taskLoop none envRec 0 (1 + 1) stWit =
      taskLoop none envRec 0 1
        { turnCount := 0 + 1,
          msgParts := [MsgPart.text (formatErrorForLLM "Request timeout" (0 + 1))],
          es := updateStatus (turnTopEs none 0 stWit) fun s =>
            { s with
                currentAction :=
                  ⟨.thinking,
                   s!"Turn {stWit.es.sessionTurnCount + 1} - handling API error..."⟩,
                llmStream :=
                  some ⟨formatErrorForLLM "Request timeout" (0 + 1), true⟩ } }) ∧
    taskLoop none envFatal 0 (1 + 1) stWit = ⟨false, some "boom", turnTopEs none 0 stWit⟩ :=
  ⟨((claim_C5 none envRec 0 1 stWit "Request timeout" ⟨"s", "d"⟩ rfl
      (by decide) (by decide)).1 (by decide)).1,
   ((claim_C5 none envFatal 0 1 stWit "boom" ⟨"s", "d"⟩ rfl
      (by decide) (by decide)).2 (by decide)).1⟩

/-! ## C3: ambiguous non-completion is failure -/

/-- C3: a turn with zero tool invocations, a strategy that does not declare
the task complete (or no strategy at all), and a continuation oracle that
answers anything but "model" or itself fails, terminates the execution with
sessionState = error and a failed TaskResult carrying an explanatory
summary — never as success and never as an escaped exception (the loop and
result assembly are total functions). -/
theorem claim_C3 (strat : Option Strategy) (env : Env) (cfg f : Nat)
    (st : LoopSt) (chunks : List Chunk) (req : TaskRequest)
    (hsoft : ¬(cfg > 0 ∧ st.es.sessionTurnCount + 1 > cfg))
    (hhard : ¬(st.turnCount + 1 > MAX_TURNS))
    (hsend : env.send (st.turnCount + 1) = .ok chunks)
    (hnofc : (streamPhase (st.es.sessionTurnCount + 1) (turnTopEs strat cfg st)
        chunks).functionCalls = [])
    (hnc : strategyComplete strat
        (postStreamUpdate (st.es.sessionTurnCount + 1)
          (streamPhase (st.es.sessionTurnCount + 1) (turnTopEs strat cfg st) chunks)
        ).currentStatus.toolCalls = false)
    (hns : env.nextSpeaker (st.turnCount + 1) = .error () ∨
      ∃ r, env.nextSpeaker (st.turnCount + 1) = .ok r ∧
        (match r with
         | some nsr => nsr.next_speaker == "model"
         | none => false) = false) :
    ∃ esF, taskLoop strat env cfg (f + 1) st =
        ⟨false, some "Task failed: Task was not completed successfully.", esF⟩ ∧
      esF.currentStatus.sessionState = .error ∧
      esF.currentStatus.finalResult = some
        { success := false,
          error := some "Task failed: Task was not completed successfully.",
          summary := "Task failed: Task was not completed successfully" } ∧
      (buildFinalResult req (taskLoop strat env cfg (f + 1) st)).success = false ∧
      (buildFinalResult req (taskLoop strat env cfg (f + 1) st)).executionSummary =
        "Task failed: Task was not completed successfully." := by
  have hiter : loopIter strat env cfg st =
      noToolPhase strat env (st.turnCount + 1) (st.es.sessionTurnCount + 1)
        (postStreamUpdate (st.es.sessionTurnCount + 1)
          (streamPhase (st.es.sessionTurnCount + 1) (turnTopEs strat cfg st) chunks)) := by
    simp only [loopIter, hsend]
    rw [if_neg hsoft, if_neg hhard]
    simp [hnofc]
  have hfail : noToolPhase strat env (st.turnCount + 1) (st.es.sessionTurnCount + 1)
      (postStreamUpdate (st.es.sessionTurnCount + 1)
        (streamPhase (st.es.sessionTurnCount + 1) (turnTopEs strat cfg st) chunks)) =
      .brk false (some "Task failed: Task was not completed successfully.")
        (updateStatus
          (updateStatus
            (postStreamUpdate (st.es.sessionTurnCount + 1)
              (streamPhase (st.es.sessionTurnCount + 1) (turnTopEs strat cfg st) chunks))
            fun s => { s with currentAction :=
              ⟨.thinking, "Determining if conversation should continue..."⟩ })
          fun s =>
            { s with
                sessionState := .error,
                finalResult := some
                  { success := false,
                    error := some "Task failed: Task was not completed successfully.",
                    summary := "Task failed: Task was not completed successfully" } }) := by
    rcases hns with hns | ⟨r, hns, hr⟩
    · simp only [noToolPhase, hnc, hns]
      simp
    · simp only [noToolPhase, hnc, hns, hr]
      simp [hr]
  have hloop : taskLoop strat env cfg (f + 1) st =
      ⟨false, some "Task failed: Task was not completed successfully.",
        updateStatus
          (updateStatus
            (postStreamUpdate (st.es.sessionTurnCount + 1)
              (streamPhase (st.es.sessionTurnCount + 1) (turnTopEs strat cfg st) chunks))
            fun s => { s with currentAction :=
              ⟨.thinking, "Determining if conversation should continue..."⟩ })
          fun s =>
            { s with
                sessionState := .error,
                finalResult := some
                  { success := false,
                    error := some "Task failed: Task was not completed successfully.",
                    summary := "Task failed: Task was not completed successfully" } }⟩ := by
    simp only [taskLoop, hiter, hfail]
  refine ⟨_, hloop, by simp [updateStatus], by simp [updateStatus], ?_, ?_⟩
  · rw [hloop]; rfl
  · rw [hloop]; rfl

/-- Environment for the C3 witness: an empty stream and an oracle that
answers `null`. -/
def envNoTool : Env :=
  { configResult := .ok 0, promptResult := .ok "p",
    send := fun _ => .ok [], toolResult := fun _ _ => {},
    nextSpeaker := fun _ => .ok none }

theorem claim_C3_witness :
    ∃ esF, taskLoop none envNoTool 0 (1 + 1) stWit =
        ⟨false, some "Task failed: Task was not completed successfully.", esF⟩ ∧
      esF.currentStatus.sessionState = .error ∧
      esF.currentStatus.finalResult = some
        { success := false,
          error := some "Task failed: Task was not completed successfully.",
          summary := "Task failed: Task was not completed successfully" } ∧
      (buildFinalResult ⟨"s", "d"⟩ (taskLoop none envNoTool 0 (1 + 1) stWit)).success = false ∧
      (buildFinalResult ⟨"s", "d"⟩ (taskLoop none envNoTool 0 (1 + 1) stWit)).executionSummary =
        "Task failed: Task was not completed successfully." :=
  claim_C3 none envNoTool 0 1 stWit [] ⟨"s", "d"⟩ (by decide) (by decide) rfl rfl rfl
    (Or.inr ⟨none, rfl, rfl⟩)

/-! ## C4: tool-error fatality classification -/

/-- C4 (amended): a tool-execution error breaks the turn loop with
sessionState = error exactly when the executor's UNDERLYING error message
does not contain "not found in registry" and the formatted message matches
a fatal pattern (the strategy's patterns when configured, else the built-in
default set); the not-found exemption is keyed on the raw executor message,
not the formatted one. In the non-fatal case the TOOL_ERROR feedback
fragment is appended to the outgoing message and processing continues. -/
theorem claim_C4 (strat : Option Strategy) (env : Env) (t i : Nat)
    (fc : FunctionCall) (es : EngineSt) (parts : List MsgPart) (emsg : String)
    (hresp : (env.toolResult t i).error = some emsg) :
    ((strContains emsg "not found in registry" = false ∧
        isFatalToolError strat (toolErrorMsg fc (env.toolResult t i) emsg) = true) →
      ∃ esF, runToolCall strat env t i fc es parts =
          .brkFatal (toolErrorMsg fc (env.toolResult t i) emsg) esF ∧
        esF.currentStatus.sessionState = .error ∧
        esF.currentStatus.finalResult = some
          { success := false,
            error := some (toolErrorMsg fc (env.toolResult t i) emsg),
            summary := "Task failed due to fatal tool error" }) ∧
    ((strContains emsg "not found in registry" = true ∨
        isFatalToolError strat (toolErrorMsg fc (env.toolResult t i) emsg) = false) →
      ∃ esC, runToolCall strat env t i fc es parts =
        .cont (parts ++ [MsgPart.text
          ("TOOL_ERROR(" ++ fc.name ++ "): " ++ toolErrorMsg fc (env.toolResult t i) emsg)])
          esC) ∧
    (∀ cfg f st chunks rest req emsg0,
      ¬(cfg > 0 ∧ st.es.sessionTurnCount + 1 > cfg) →
      ¬(st.turnCount + 1 > MAX_TURNS) →
      env.send (st.turnCount + 1) = .ok chunks →
      (streamPhase (st.es.sessionTurnCount + 1) (turnTopEs strat cfg st)
          chunks).functionCalls = fc :: rest →
      (env.toolResult (st.turnCount + 1) 0).error = some emsg0 →
      strContains emsg0 "not found in registry" = false →
      isFatalToolError strat (toolErrorMsg fc (env.toolResult (st.turnCount + 1) 0) emsg0) = true →
      ∃ esF, taskLoop strat env cfg (f + 1) st =
          ⟨false, some (toolErrorMsg fc (env.toolResult (st.turnCount + 1) 0) emsg0), esF⟩ ∧
        esF.currentStatus.sessionState = .error ∧
        (buildFinalResult req (taskLoop strat env cfg (f + 1) st)).success = false ∧
        (buildFinalResult req (taskLoop strat env cfg (f + 1) st)).error =
          some (toolErrorMsg fc (env.toolResult (st.turnCount + 1) 0) emsg0)) := by
  refine ⟨?_, ?_, ?_⟩
  · rintro ⟨hnf, hfat⟩
    simp only [runToolCall, hresp, hnf, hfat]
    simp only [Bool.not_false, Bool.true_and, if_true]
    exact ⟨_, rfl, by simp [updateStatus], by simp [updateStatus]⟩
  · intro h
    rcases h with hnf | hfat
    · simp only [runToolCall, hresp, hnf]
      simp only [Bool.not_true, Bool.false_and, Bool.false_eq_true, if_false]
      exact ⟨_, rfl⟩
    · simp only [runToolCall, hresp, hfat]
      simp only [Bool.and_false, Bool.false_eq_true, if_false]
      exact ⟨_, rfl⟩
  · intro cfg f st chunks rest req emsg0 hsoft hhard hsend hfc hresp0 hnf hfat
    simp only [taskLoop, loopIter, hsend]
    rw [if_neg hsoft, if_neg hhard]
    simp only [hfc, List.length_cons]
    simp only [runToolCalls, runToolCall, hresp0, hnf, hfat]
    simp only [Bool.not_false, Bool.true_and, if_true, Nat.zero_lt_succ, gt_iff_lt]
    exact ⟨_, rfl, by simp [updateStatus], rfl, rfl⟩

/-- The tool invocation used by the C4 scenarios. -/
def fcC4 : FunctionCall := { id := some "c1", name := "t" }

/-- Environment for the C4 counterexample: the executor's raw error message
is `boom`, but its `resultDisplay` — which the engine prefers when
formatting — contains both a default-fatal word and the not-found phrase. -/
def envC4 : Env :=
  { configResult := .ok 0, promptResult := .ok "p",
    send := fun _ => .ok [chunkOfParts [{ text := some "x" }] (some [fcC4])],
    toolResult := fun _ _ =>
      { error := some "boom",
        resultDisplay := some "auth failed: tool not found in registry" },
    nextSpeaker := fun _ => .ok none }

/-- C4 as stated is false: here the FORMATTED message does indicate
"not found in registry", yet the loop terminates at that turn with
sessionState = error, because the code keys the not-found exemption on the
raw executor message (`boom`) and the formatted message matches the default
fatal pattern (`auth`). -/
theorem claim_C4_counterexample :
    strContains "Error executing tool t: auth failed: tool not found in registry"
      "not found in registry" = true ∧
    (executeTask none envC4 ⟨"s", "d"⟩ ⟨0, []⟩).1.success = false ∧
    (executeTask none envC4 ⟨"s", "d"⟩ ⟨0, []⟩).1.error =
      some "Error executing tool t: auth failed: tool not found in registry" ∧
    ((executeTask none envC4 ⟨"s", "d"⟩ ⟨0, []⟩).2.trace.getLast?.map
      fun s => s.sessionState) = some .error ∧
    (executeTask none envC4 ⟨"s", "d"⟩ ⟨0, []⟩).1.metadata.turnCount = 1 :=
  ⟨by decide, rfl, rfl, rfl, rfl⟩

/-- Environment whose executor reports a tool-not-found error. -/
def envNF : Env :=
  { envC4 with toolResult := fun _ _ =>
      { error := some "tool not found in registry" } }

theorem claim_C4_witness :
    (∃ esF, runToolCall none envC4 1 0 fcC4 esWit [] =
        .brkFatal (toolErrorMsg fcC4 (envC4.toolResult 1 0) "boom") esF ∧
      esF.currentStatus.sessionState = .error ∧
      esF.currentStatus.finalResult = some
        { success := false,
          error := some (toolErrorMsg fcC4 (envC4.toolResult 1 0) "boom"),
          summary := "Task failed due to fatal tool error" }) ∧
    (∃ esC, runToolCall none envNF 1 0 fcC4 esWit [] =
        .cont ([] ++ [MsgPart.text ("TOOL_ERROR(" ++ fcC4.name ++ "): " ++
          toolErrorMsg fcC4 (envNF.toolResult 1 0) "tool not found in registry")]) esC) :=
  ⟨(claim_C4 none envC4 1 0 fcC4 esWit [] "boom" rfl).1 ⟨by decide, by decide⟩,
   (claim_C4 none envNF 1 0 fcC4 esWit [] "tool not found in registry" rfl).2.1
     (Or.inl (by decide))⟩

/-! ## C1: the entry point always resolves -/

/-- C1: `executeTask` is a total function (its type returns a `TaskResult`
for every environment, embedding "always resolves; no exception escapes"),
and whenever the internal routine throws — during configuration/setup here;
exceptions inside the turn loop are already converted by the inner catch
into an ordinary failed result — the entry point's catch converts the
exception into a TaskResult with success = false, the exception's message,
and the metadata read off the engine state at the throw point, publishing a
final error snapshot to the observer. -/
theorem claim_C1 (strat : Option Strategy) (env : Env) (req : TaskRequest)
    (p : EnginePersist) (msg : String) (esE : EngineSt)
    (h : executeTaskInternal strat env req
      (updateStatus ⟨p.sessionTurnCount, initialStatus req, p.trace⟩ id) =
      .error (msg, esE)) :
    (executeTask strat env req p).1.success = false ∧
    (executeTask strat env req p).1.error = some msg ∧
    (executeTask strat env req p).1.sessionId = req.sessionId ∧
    (executeTask strat env req p).1.executionSummary = "Error occurred during execution" ∧
    (executeTask strat env req p).1.metadata.turnCount =
      esE.currentStatus.progress.currentTurn ∧
    (executeTask strat env req p).1.metadata.toolCallCount =
      esE.currentStatus.toolCalls.length ∧
    ((executeTask strat env req p).2.trace.getLast?.map fun s => s.sessionState) =
      some .error := by
  simp only [executeTask, h]
  simp [updateStatus]

/-- Environment whose configuration building throws. -/
def envCfgErr : Env :=
  { configResult := .error "config boom", promptResult := .ok "p",
    send := fun _ => .ok [], toolResult := fun _ _ => {},
    nextSpeaker := fun _ => .ok none }

theorem claim_C1_witness :
    (executeTask none envCfgErr ⟨"s", "d"⟩ ⟨0, []⟩).1.success = false ∧
    (executeTask none envCfgErr ⟨"s", "d"⟩ ⟨0, []⟩).1.error = some "config boom" ∧
    (executeTask none envCfgErr ⟨"s", "d"⟩ ⟨0, []⟩).1.sessionId = "s" ∧
    (executeTask none envCfgErr ⟨"s", "d"⟩ ⟨0, []⟩).1.executionSummary =
      "Error occurred during execution" ∧
    (executeTask none envCfgErr ⟨"s", "d"⟩ ⟨0, []⟩).1.metadata.turnCount =
      (updateStatus ⟨0, initialStatus ⟨"s", "d"⟩, []⟩
        id).currentStatus.progress.currentTurn ∧
    (executeTask none envCfgErr ⟨"s", "d"⟩ ⟨0, []⟩).1.metadata.toolCallCount =
      (updateStatus ⟨0, initialStatus ⟨"s", "d"⟩, []⟩
        id).currentStatus.toolCalls.length ∧
    ((executeTask none envCfgErr ⟨"s", "d"⟩ ⟨0, []⟩).2.trace.getLast?.map
      fun s => s.sessionState) = some .error :=
  claim_C1 none envCfgErr ⟨"s", "d"⟩ ⟨0, []⟩ "config boom"
    (updateStatus ⟨0, initialStatus ⟨"s", "d"⟩, []⟩ id) rfl

/-! ## C2: the hard turn ceiling -/

/-- Environment of the C2 scenario: the model answers every turn with an
empty stream (so no tool invocations), and the Continuation Oracle always
reports the model should continue; the soft limit is unset (0). -/
def envHard : Env :=
  { configResult := .ok 0, promptResult := .ok "p",
    send := fun _ => .ok [], toolResult := fun _ _ => {},
    nextSpeaker := fun _ => .ok (some { next_speaker := "model" }) }

/-- The same scenario with a soft limit far above the hard limit. -/
def envHardSoft : Env :=
  { envHard with configResult := .ok 1000 }

set_option maxRecDepth 10000 in
set_option maxHeartbeats 4000000 in
/-- C2, evaluated at the failing input: with the soft limit unset (and also
with a larger soft limit of 1000), a model that never emits tool calls and
an oracle that always says "continue" ends after exactly `MAX_TURNS + 1`
turn-loop iterations with success = false and the error message naming the
configured hard limit — but the last published `sessionState` is `running`,
not `error` as the claim (and spec §4.1/§8) require: no status update runs
on the limit-break path, and the code's own end-of-run diagnostic treats a
non-terminal final state as a warning. -/
theorem claim_C2 :
    (executeTask none envHard ⟨"s", "d"⟩ ⟨0, []⟩).1.success = false ∧
    (executeTask none envHard ⟨"s", "d"⟩ ⟨0, []⟩).1.error =
      some "Reached hard turn limit (200)." ∧
    strContains "Reached hard turn limit (200)." "200" = true ∧
    (executeTask none envHard ⟨"s", "d"⟩ ⟨0, []⟩).1.metadata.turnCount =
      MAX_TURNS + 1 ∧
    ((executeTask none envHard ⟨"s", "d"⟩ ⟨0, []⟩).2.trace.getLast?.map
      fun s => s.sessionState) = some .running ∧
    (executeTask none envHardSoft ⟨"s", "d"⟩ ⟨0, []⟩).1.error =
      some "Reached hard turn limit (200)." ∧
    (executeTask none envHardSoft ⟨"s", "d"⟩ ⟨0, []⟩).1.metadata.turnCount =
      MAX_TURNS + 1 ∧
    (SessionState.running ≠ SessionState.error) :=
  ⟨rfl, rfl, by decide, rfl, rfl, rfl, rfl, by decide⟩

/-! ## Monotonicity of the engine state (trace only grows, the turn counter
is never reset) -/

/-- `b` is reachable from `a` by engine steps: the observer trace is
extended and the session turn counter never decreases. -/
def esStep (a b : EngineSt) : Prop :=
  a.trace <+: b.trace ∧ a.sessionTurnCount ≤ b.sessionTurnCount

theorem esStep_rfl (a : EngineSt) : esStep a a :=
  ⟨List.prefix_refl _, le_refl _⟩

theorem esStep_trans {a b c : EngineSt} (h1 : esStep a b) (h2 : esStep b c) :
    esStep a c :=
  ⟨h1.1.trans h2.1, h1.2.trans h2.2⟩

theorem esStep_updateStatus (es : EngineSt) (f : TaskStatus → TaskStatus) :
    esStep es (updateStatus es f) :=
  ⟨⟨[f es.currentStatus], rfl⟩, le_refl _⟩

theorem esStep_engineUpdateToolStatus (es : EngineSt) (cid : String)
    (u : ToolUpdate) : esStep es (engineUpdateToolStatus es cid u) :=
  ⟨⟨_, rfl⟩, le_refl _⟩

theorem esStep_streamStep (stc : Nat) (acc : StreamAcc) (c : Chunk) :
    esStep acc.es (streamStep stc acc c).es := by
  unfold streamStep
  by_cases hv : isValidResponse c
  · simp only [hv, Bool.not_true, Bool.false_eq_true, if_false]
    cases hg : getTextContent c with
    | none =>
      cases c.functionCalls <;> simp <;> exact esStep_rfl _
    | some s =>
      by_cases hs : s = ""
      · subst hs
        cases c.functionCalls <;> simp <;> exact esStep_rfl _
      · cases c.functionCalls <;> simp [hs] <;> exact esStep_updateStatus _ _
  · simp only [hv]
    simp
    exact esStep_rfl _

theorem esStep_streamFold (stc : Nat) (chunks : List Chunk) :
    ∀ acc : StreamAcc, esStep acc.es (chunks.foldl (streamStep stc) acc).es := by
  induction chunks with
  | nil => intro acc; exact esStep_rfl _
  | cons c rest ih =>
    intro acc
    rw [List.foldl_cons]
    exact esStep_trans (esStep_streamStep stc acc c) (ih _)

theorem esStep_streamPhase (stc : Nat) (es : EngineSt) (chunks : List Chunk) :
    esStep es (streamPhase stc es chunks).es :=
  esStep_streamFold stc chunks ⟨es, false, "", []⟩

theorem esStep_postStreamUpdate (stc : Nat) (acc : StreamAcc) :
    esStep acc.es (postStreamUpdate stc acc) :=
  esStep_updateStatus _ _

theorem esStep_runToolCall (strat : Option Strategy) (env : Env) (t i : Nat)
    (fc : FunctionCall) (es : EngineSt) (parts : List MsgPart) :
    (∀ m es2, runToolCall strat env t i fc es parts = .brkFatal m es2 → esStep es es2) ∧
    (∀ ps es2, runToolCall strat env t i fc es parts = .cont ps es2 → esStep es es2) := by
  cases he : (env.toolResult t i).error with
  | some emsg =>
    by_cases hfat : (!strContains emsg "not found in registry" &&
        isFatalToolError strat (toolErrorMsg fc (env.toolResult t i) emsg)) = true
    · constructor
      · intro m es2 h
        simp only [runToolCall, he, hfat, if_true] at h
        cases h
        exact esStep_trans (esStep_engineUpdateToolStatus _ _ _)
          (esStep_trans (esStep_engineUpdateToolStatus _ _ _) (esStep_updateStatus _ _))
      · intro ps es2 h
        simp only [runToolCall, he, hfat, if_true] at h
        cases h
    · have hfat2 : (!strContains emsg "not found in registry" &&
          isFatalToolError strat (toolErrorMsg fc (env.toolResult t i) emsg)) = false := by
        simpa using hfat
      constructor
      · intro m es2 h
        simp only [runToolCall, he, hfat2, Bool.false_eq_true, if_false] at h
        cases h
      · intro ps es2 h
        simp only [runToolCall, he, hfat2, Bool.false_eq_true, if_false] at h
        cases h
        exact esStep_trans (esStep_engineUpdateToolStatus _ _ _)
          (esStep_engineUpdateToolStatus _ _ _)
  | none =>
    cases strat with
    | none =>
      constructor
      · intro m es2 h
        simp only [runToolCall, he] at h
        exact ToolStepRes.noConfusion h
      · intro ps es2 h
        simp only [runToolCall, he] at h
        cases h
        exact esStep_trans (esStep_engineUpdateToolStatus _ _ _)
          (esStep_engineUpdateToolStatus _ _ _)
    | some s =>
      cases hpr : (s.processToolResult
          { callId := toolCallId fc, name := fc.name, args := fc.args.getD [],
            status := .completed, startTime := 0 } (env.toolResult t i)).finalResult with
      | none =>
        constructor
        · intro m es2 h
          simp only [runToolCall, he, hpr] at h
          exact ToolStepRes.noConfusion h
        · intro ps es2 h
          simp only [runToolCall, he, hpr] at h
          cases h
          exact esStep_trans (esStep_engineUpdateToolStatus _ _ _)
            (esStep_engineUpdateToolStatus _ _ _)
      | some fr =>
        constructor
        · intro m es2 h
          simp only [runToolCall, he, hpr] at h
          exact ToolStepRes.noConfusion h
        · intro ps es2 h
          simp only [runToolCall, he, hpr] at h
          cases h
          exact esStep_trans (esStep_engineUpdateToolStatus _ _ _)
            (esStep_trans (esStep_updateStatus _ _) (esStep_engineUpdateToolStatus _ _ _))

theorem esStep_runToolCalls (strat : Option Strategy) (env : Env) (t : Nat) :
    ∀ (fcs : List FunctionCall) (i : Nat) (es : EngineSt) (parts : List MsgPart),
      (∀ m es2, runToolCalls strat env t i fcs es parts = .fatal m es2 → esStep es es2) ∧
      (∀ ps es2, runToolCalls strat env t i fcs es parts = .done ps es2 → esStep es es2) := by
  intro fcs
  induction fcs with
  | nil =>
    intro i es parts
    constructor
    · intro m es2 h; cases h
    · intro ps es2 h; cases h; exact esStep_rfl _
  | cons fc rest ih =>
    intro i es parts
    constructor
    · intro m es2 h
      unfold runToolCalls at h
      revert h
      cases hrc : runToolCall strat env t i fc es parts with
      | brkFatal m2 esB =>
        intro h
        cases h
        exact (esStep_runToolCall strat env t i fc es parts).1 _ _ hrc
      | cont ps2 esC =>
        intro h
        exact esStep_trans
          ((esStep_runToolCall strat env t i fc es parts).2 ps2 esC hrc)
          ((ih (i + 1) esC ps2).1 m es2 h)
    · intro ps es2 h
      unfold runToolCalls at h
      revert h
      cases hrc : runToolCall strat env t i fc es parts with
      | brkFatal m2 esB => intro h; cases h
      | cont ps2 esC =>
        intro h
        exact esStep_trans
          ((esStep_runToolCall strat env t i fc es parts).2 ps2 esC hrc)
          ((ih (i + 1) esC ps2).2 ps es2 h)

theorem esStep_noToolPhase (strat : Option Strategy) (env : Env) (t stc : Nat)
    (es : EngineSt) :
    (∀ b e es2, noToolPhase strat env t stc es = .brk b e es2 → esStep es es2) ∧
    (∀ st2, noToolPhase strat env t stc es = .next st2 → esStep es st2.es) := by
  have hfail : esStep es
      (updateStatus
        (updateStatus es fun st => { st with currentAction :=
          ⟨.thinking, "Determining if conversation should continue..."⟩ })
        fun st =>
          { st with
              sessionState := .error,
              finalResult := some
                { success := false,
                  error := some "Task failed: Task was not completed successfully.",
                  summary := "Task failed: Task was not completed successfully" } }) :=
    esStep_trans (esStep_updateStatus _ _) (esStep_updateStatus _ _)
  constructor
  · intro b e es2 h
    unfold noToolPhase at h
    cases hc : strategyComplete strat es.currentStatus.toolCalls with
    | true =>
      simp only [hc, if_true] at h
      cases h
      exact esStep_updateStatus _ _
    | false =>
      simp only [hc, Bool.false_eq_true, if_false] at h
      cases hns : env.nextSpeaker t with
      | error u =>
        simp only [hns] at h
        cases h
        exact hfail
      | ok r =>
        simp only [hns] at h
        cases r with
        | none =>
          simp only [Bool.false_eq_true, if_false] at h
          cases h
          exact hfail
        | some nsr =>
          cases hm : (nsr.next_speaker == "model") with
          | true =>
            simp only [hm, if_true] at h
            exact StepRes.noConfusion h
          | false =>
            simp only [hm, Bool.false_eq_true, if_false] at h
            cases h
            exact hfail
  · intro st2 h
    unfold noToolPhase at h
    cases hc : strategyComplete strat es.currentStatus.toolCalls with
    | true =>
      simp only [hc, if_true] at h
      exact StepRes.noConfusion h
    | false =>
      simp only [hc, Bool.false_eq_true, if_false] at h
      cases hns : env.nextSpeaker t with
      | error u =>
        simp only [hns] at h
        exact StepRes.noConfusion h
      | ok r =>
        simp only [hns] at h
        cases r with
        | none =>
          simp only [Bool.false_eq_true, if_false] at h
          exact StepRes.noConfusion h
        | some nsr =>
          cases hm : (nsr.next_speaker == "model") with
          | true =>
            simp only [hm, if_true] at h
            cases h
            exact esStep_trans (esStep_updateStatus _ _) (esStep_updateStatus _ _)
          | false =>
            simp only [hm, Bool.false_eq_true, if_false] at h
            exact StepRes.noConfusion h

theorem esStep_turnTop (strat : Option Strategy) (cfg : Nat) (st : LoopSt) :
    esStep st.es (turnTopEs strat cfg st) := by
  unfold turnTopEs updateStatus
  exact ⟨⟨_, rfl⟩, Nat.le_succ _⟩

theorem esStep_loopIter (strat : Option Strategy) (env : Env) (cfg : Nat)
    (st : LoopSt) :
    (∀ b e es2, loopIter strat env cfg st = .brk b e es2 → esStep st.es es2) ∧
    (∀ st2, loopIter strat env cfg st = .next st2 → esStep st.es st2.es) := by
  have hTT := esStep_turnTop strat cfg st
  constructor
  · intro b e es2 h
    simp only [loopIter] at h
    by_cases h1 : cfg > 0 ∧ st.es.sessionTurnCount + 1 > cfg
    · rw [if_pos h1] at h
      cases h
      exact ⟨List.prefix_refl _, Nat.le_succ _⟩
    · rw [if_neg h1] at h
      by_cases h2 : st.turnCount + 1 > MAX_TURNS
      · rw [if_pos h2] at h
        cases h
        exact ⟨List.prefix_refl _, Nat.le_succ _⟩
      · rw [if_neg h2] at h
        cases hsend : env.send (st.turnCount + 1) with
        | error msg =>
          simp only [hsend] at h
          cases hrec : isRecoverableError msg with
          | true =>
            simp only [hrec, if_true] at h
            exact StepRes.noConfusion h
          | false =>
            simp only [hrec, Bool.false_eq_true, if_false] at h
            cases h
            exact hTT
        | ok chunks =>
          simp only [hsend] at h
          have hbase : esStep st.es
              (postStreamUpdate (st.es.sessionTurnCount + 1)
                (streamPhase (st.es.sessionTurnCount + 1) (turnTopEs strat cfg st)
                  chunks)) :=
            esStep_trans hTT
              (esStep_trans (esStep_streamPhase _ _ chunks)
                (esStep_postStreamUpdate _ _))
          by_cases hfc : (streamPhase (st.es.sessionTurnCount + 1)
              (turnTopEs strat cfg st) chunks).functionCalls.length > 0
          · rw [if_pos hfc] at h
            cases hrt : runToolCalls strat env (st.turnCount + 1) 0
                (streamPhase (st.es.sessionTurnCount + 1) (turnTopEs strat cfg st)
                  chunks).functionCalls
                (postStreamUpdate (st.es.sessionTurnCount + 1)
                  (streamPhase (st.es.sessionTurnCount + 1) (turnTopEs strat cfg st)
                    chunks)) [] with
            | fatal m esF =>
              simp only [hrt] at h
              cases h
              exact esStep_trans hbase
                ((esStep_runToolCalls strat env (st.turnCount + 1) _ 0 _ []).1 _ _ hrt)
            | done ps esD =>
              simp only [hrt] at h
              exact StepRes.noConfusion h
          · rw [if_neg hfc] at h
            exact esStep_trans hbase
              ((esStep_noToolPhase strat env (st.turnCount + 1)
                (st.es.sessionTurnCount + 1) _).1 b e es2 h)
  · intro st2 h
    simp only [loopIter] at h
    by_cases h1 : cfg > 0 ∧ st.es.sessionTurnCount + 1 > cfg
    · rw [if_pos h1] at h
      exact StepRes.noConfusion h
    · rw [if_neg h1] at h
      by_cases h2 : st.turnCount + 1 > MAX_TURNS
      · rw [if_pos h2] at h
        exact StepRes.noConfusion h
      · rw [if_neg h2] at h
        cases hsend : env.send (st.turnCount + 1) with
        | error msg =>
          simp only [hsend] at h
          cases hrec : isRecoverableError msg with
          | true =>
            simp only [hrec, if_true] at h
            cases h
            exact esStep_trans hTT (esStep_updateStatus _ _)
          | false =>
            simp only [hrec, Bool.false_eq_true, if_false] at h
            exact StepRes.noConfusion h
        | ok chunks =>
          simp only [hsend] at h
          have hbase : esStep st.es
              (postStreamUpdate (st.es.sessionTurnCount + 1)
                (streamPhase (st.es.sessionTurnCount + 1) (turnTopEs strat cfg st)
                  chunks)) :=
            esStep_trans hTT
              (esStep_trans (esStep_streamPhase _ _ chunks)
                (esStep_postStreamUpdate _ _))
          by_cases hfc : (streamPhase (st.es.sessionTurnCount + 1)
              (turnTopEs strat cfg st) chunks).functionCalls.length > 0
          · rw [if_pos hfc] at h
            cases hrt : runToolCalls strat env (st.turnCount + 1) 0
                (streamPhase (st.es.sessionTurnCount + 1) (turnTopEs strat cfg st)
                  chunks).functionCalls
                (postStreamUpdate (st.es.sessionTurnCount + 1)
                  (streamPhase (st.es.sessionTurnCount + 1) (turnTopEs strat cfg st)
                    chunks)) [] with
            | fatal m esF =>
              simp only [hrt] at h
              exact StepRes.noConfusion h
            | done ps esD =>
              simp only [hrt] at h
              cases h
              exact esStep_trans hbase
                ((esStep_runToolCalls strat env (st.turnCount + 1) _ 0 _ []).2 _ _ hrt)
          · rw [if_neg hfc] at h
            exact esStep_trans hbase
              ((esStep_noToolPhase strat env (st.turnCount + 1)
                (st.es.sessionTurnCount + 1) _).2 st2 h)

theorem esStep_taskLoop (strat : Option Strategy) (env : Env) (cfg : Nat) :
    ∀ (f : Nat) (st : LoopSt), esStep st.es (taskLoop strat env cfg f st).es := by
  intro f
  induction f with
  | zero => intro st; exact esStep_rfl _
  | succ f2 ih =>
    intro st
    unfold taskLoop
    cases hiter : loopIter strat env cfg st with
    | brk b e es2 =>
      exact (esStep_loopIter strat env cfg st).1 b e es2 hiter
    | next st2 =>
      exact esStep_trans ((esStep_loopIter strat env cfg st).2 st2 hiter) (ih st2)

theorem esStep_executeTaskInternal (strat : Option Strategy) (env : Env)
    (req : TaskRequest) (es : EngineSt) :
    (∀ r esF, executeTaskInternal strat env req es = .ok (r, esF) → esStep es esF) ∧
    (∀ msg esE, executeTaskInternal strat env req es = .error (msg, esE) →
      esStep es esE) := by
  constructor
  · intro r esF h
    simp only [executeTaskInternal] at h
    cases hcfg : env.configResult with
    | error m =>
      simp only [hcfg] at h
      exact Except.noConfusion h
    | ok cfg =>
      simp only [hcfg] at h
      cases hp : env.promptResult with
      | error m =>
        simp only [hp] at h
        exact Except.noConfusion h
      | ok prompt =>
        simp only [hp] at h
        cases h
        exact esStep_trans (esStep_updateStatus _ _)
          (esStep_taskLoop strat env cfg (MAX_TURNS + 1)
            { turnCount := 0, msgParts := [MsgPart.text prompt],
              es := updateStatus es fun s =>
                { s with
                    sessionState := .running,
                    currentAction := ⟨.thinking, "Starting task execution..."⟩ } })
  · intro msg esE h
    simp only [executeTaskInternal] at h
    cases hcfg : env.configResult with
    | error m =>
      simp only [hcfg] at h
      cases h
      exact esStep_rfl _
    | ok cfg =>
      simp only [hcfg] at h
      cases hp : env.promptResult with
      | error m =>
        simp only [hp] at h
        cases h
        exact esStep_updateStatus _ _
      | ok prompt =>
        simp only [hp] at h
        exact Except.noConfusion h

/-! ## C10: what persists across executions on one engine instance -/

/-- C10 (amended): each `executeTask` call starts by building and
publishing an entirely fresh `TaskStatus` (empty tool-call ledger,
`initializing` state) — that part of the claim holds — but the engine
instance's `sessionTurnCount` is never reset: it persists and can only grow
across executions, so the soft max-session-turns check and the reported
`metadata.turnCount` are cumulative across executions of the same instance
and a second execution is not equivalent to one on a fresh engine. -/
theorem claim_C10 (strat : Option Strategy) (env : Env) (req : TaskRequest)
    (p : EnginePersist) :
    (∃ tr, (executeTask strat env req p).2.trace =
      p.trace ++ initialStatus req :: tr) ∧
    p.sessionTurnCount ≤ (executeTask strat env req p).2.sessionTurnCount := by
  cases hint : executeTaskInternal strat env req
      (updateStatus ⟨p.sessionTurnCount, initialStatus req, p.trace⟩ id) with
  | ok val =>
    obtain ⟨res, esF⟩ := val
    have hes := (esStep_executeTaskInternal strat env req
      (updateStatus ⟨p.sessionTurnCount, initialStatus req, p.trace⟩ id)).1 res esF hint
    constructor
    · obtain ⟨t2, ht2⟩ := hes.1
      refine ⟨t2, ?_⟩
      simp only [executeTask, hint]
      rw [← ht2]
      simp [updateStatus]
    · have h2 := hes.2
      simp only [executeTask, hint]
      simpa [updateStatus] using h2
  | error val =>
    obtain ⟨msg, esE⟩ := val
    have hes := (esStep_executeTaskInternal strat env req
      (updateStatus ⟨p.sessionTurnCount, initialStatus req, p.trace⟩ id)).2 msg esE hint
    have hes2 := esStep_trans hes (esStep_updateStatus esE fun s =>
      { s with
          sessionState := .error,
          finalResult := some
            { success := false, error := some msg,
              summary := "Task execution failed: " ++ msg } })
    constructor
    · obtain ⟨t2, ht2⟩ := hes2.1
      refine ⟨t2, ?_⟩
      simp only [executeTask, hint]
      rw [← ht2]
      simp [updateStatus]
    · have h2 := hes2.2
      simp only [executeTask, hint]
      simpa [updateStatus] using h2

/-- Environment of the C10 counterexample: the soft limit is 1 and every
send fails non-recoverably. -/
def envSoft : Env :=
  { configResult := .ok 1, promptResult := .ok "p",
    send := fun _ => .error "boom", toolResult := fun _ _ => {},
    nextSpeaker := fun _ => .ok none }

/-- C10 as stated is false: running the same request twice on one engine
instance does not behave like a fresh engine. The first run fails at turn 1
with the transport error `boom` (turnCount 1); the second run on the same
instance trips the soft limit immediately — its reported turnCount is 2,
because `sessionTurnCount` carried over — whereas a fresh engine would
repeat the first run's behavior exactly. -/
theorem claim_C10_counterexample :
    (executeTask none envSoft ⟨"s", "d"⟩
        (executeTask none envSoft ⟨"s", "d"⟩ ⟨0, []⟩).2).1 ≠
      (executeTask none envSoft ⟨"s", "d"⟩ ⟨0, []⟩).1 ∧
    (executeTask none envSoft ⟨"s", "d"⟩ ⟨0, []⟩).1.error = some "boom" ∧
    (executeTask none envSoft ⟨"s", "d"⟩ ⟨0, []⟩).1.metadata.turnCount = 1 ∧
    (executeTask none envSoft ⟨"s", "d"⟩
        (executeTask none envSoft ⟨"s", "d"⟩ ⟨0, []⟩).2).1.error =
      some "Reached max session turns for this session." ∧
    (executeTask none envSoft ⟨"s", "d"⟩
        (executeTask none envSoft ⟨"s", "d"⟩ ⟨0, []⟩).2).1.metadata.turnCount = 2 :=
  ⟨by decide, rfl, rfl, rfl, rfl⟩

/-! ## C8: range of the fallback progress value -/

/-- The progress discipline of one published snapshot: within [0, 95] while
running, exactly 100 once completed. -/
def statusOk (s : TaskStatus) : Prop :=
  (s.sessionState = .running →
    0 ≤ s.progress.percentage ∧ s.progress.percentage ≤ 95) ∧
  (s.sessionState = .completed → s.progress.percentage = 100)

/-- In a no-strategy run the engine never records a successful
`finalResult` (only error paths set it, always with `success = false`). -/
def resultMild : Option FinalResult → Prop
  | some r => r.success = false
  | none => True

/-- The engine-state invariant of a no-strategy run. -/
def invES (es : EngineSt) : Prop :=
  (∀ s ∈ es.trace, statusOk s) ∧ statusOk es.currentStatus ∧
    resultMild es.currentStatus.finalResult

/-- The loop-entry invariant: additionally the current status is still
`running`. -/
def loopInv (es : EngineSt) : Prop :=
  invES es ∧ es.currentStatus.sessionState = .running

theorem statusOk_same {s s2 : TaskStatus}
    (h1 : s2.sessionState = s.sessionState)
    (h2 : s2.progress.percentage = s.progress.percentage)
    (h : statusOk s) : statusOk s2 := by
  constructor
  · intro hst
    rw [h2]
    exact h.1 (by rw [← h1]; exact hst)
  · intro hst
    rw [h2]
    exact h.2 (by rw [← h1]; exact hst)

theorem invES_updateStatus {es : EngineSt} {f : TaskStatus → TaskStatus}
    (h : invES es) (hok : statusOk (f es.currentStatus))
    (hm : resultMild (f es.currentStatus).finalResult) :
    invES (updateStatus es f) := by
  refine ⟨?_, hok, hm⟩
  intro s hs
  simp only [updateStatus, List.mem_append, List.mem_singleton] at hs
  rcases hs with hs | rfl
  · exact h.1 s hs
  · exact hok

/-- A status update that changes neither `sessionState` nor the percentage
nor `finalResult` preserves the loop invariant. -/
theorem loopInv_updateStatus_same {es : EngineSt} {f : TaskStatus → TaskStatus}
    (h : loopInv es)
    (h1 : (f es.currentStatus).sessionState = es.currentStatus.sessionState)
    (h2 : (f es.currentStatus).progress.percentage =
      es.currentStatus.progress.percentage)
    (h3 : (f es.currentStatus).finalResult = es.currentStatus.finalResult) :
    loopInv (updateStatus es f) := by
  obtain ⟨⟨htr, hok, hm⟩, hrun⟩ := h
  refine ⟨invES_updateStatus ⟨htr, hok, hm⟩ (statusOk_same h1 h2 hok)
    (by rw [h3]; exact hm), ?_⟩
  show (f es.currentStatus).sessionState = .running
  rw [h1]
  exact hrun

/-- A status update that moves to `error` with a failed final result
preserves the basic invariant. -/
theorem invES_updateStatus_error {es : EngineSt} {f : TaskStatus → TaskStatus}
    (h : invES es) (h1 : (f es.currentStatus).sessionState = .error)
    (h3 : resultMild (f es.currentStatus).finalResult) :
    invES (updateStatus es f) := by
  refine invES_updateStatus h ⟨fun hst => ?_, fun hst => ?_⟩ h3
  · rw [h1] at hst; cases hst
  · rw [h1] at hst; cases hst

theorem loopInv_engineUpdateToolStatus {es : EngineSt} (cid : String)
    (u : ToolUpdate) (h : loopInv es) :
    loopInv (engineUpdateToolStatus es cid u) := by
  obtain ⟨⟨htr, hok, hm⟩, hrun⟩ := h
  unfold engineUpdateToolStatus
  have hinv2 : invES { es with currentStatus :=
      { es.currentStatus with
        toolCalls := updateToolStatus es.currentStatus.toolCalls cid u } } :=
    ⟨htr, statusOk_same rfl rfl hok, hm⟩
  exact loopInv_updateStatus_same ⟨hinv2, hrun⟩ rfl rfl rfl

theorem calculateProgress_none_bounds (status : TaskStatus) (cfg : Nat)
    (hm : resultMild status.finalResult) :
    0 ≤ calculateProgress none status cfg ∧ calculateProgress none status cfg ≤ 95 := by
  have hmt : (0 : ℚ) < (jsOrNat cfg 50 : ℚ) := by
    unfold jsOrNat
    by_cases hc : cfg = 0
    · simp [hc]
    · simp only [hc, if_false]
      exact_mod_cast Nat.pos_of_ne_zero hc
  have hbound : 0 ≤ min ((status.progress.currentTurn : ℚ) / (jsOrNat cfg 50 : ℚ) * 95) 95 ∧
      min ((status.progress.currentTurn : ℚ) / (jsOrNat cfg 50 : ℚ) * 95) 95 ≤ 95 := by
    constructor
    · apply le_min
      · apply mul_nonneg (div_nonneg (Nat.cast_nonneg _) (le_of_lt hmt))
        norm_num
      · norm_num
    · exact min_le_right _ _
  unfold calculateProgress
  cases hfr : status.finalResult with
  | none => simpa using hbound
  | some fr =>
    have hfs : fr.success = false := by
      have := hm
      rw [hfr] at this
      exact this
    simpa [hfs] using hbound

theorem loopInv_turnTop (cfg : Nat) (st : LoopSt) (h : loopInv st.es) :
    loopInv (turnTopEs none cfg st) := by
  obtain ⟨⟨htr, hok, hm⟩, hrun⟩ := h
  unfold turnTopEs
  have hinv0 : invES { st.es with sessionTurnCount := st.es.sessionTurnCount + 1 } :=
    ⟨htr, hok, hm⟩
  have hbounds := calculateProgress_none_bounds st.es.currentStatus cfg hm
  refine ⟨invES_updateStatus hinv0 ⟨fun hst => ?_, fun hst => ?_⟩ hm, ?_⟩
  · exact hbounds
  · exact absurd (hrun.symm.trans hst) (by decide)
  · exact hrun

theorem loopInv_streamStep (stc : Nat) (acc : StreamAcc) (c : Chunk)
    (h : loopInv acc.es) : loopInv (streamStep stc acc c).es := by
  unfold streamStep
  by_cases hv : isValidResponse c
  · simp only [hv, Bool.not_true, Bool.false_eq_true, if_false]
    cases hg : getTextContent c with
    | none =>
      cases c.functionCalls <;> simpa using h
    | some s =>
      by_cases hs : s = ""
      · subst hs
        cases c.functionCalls <;> simpa using h
      · have hs2 : (s ≠ "") = True := by simp [hs]
        cases c.functionCalls with
        | none =>
          simp only [hs2, if_true]
          exact loopInv_updateStatus_same h rfl rfl rfl
        | some fcs =>
          simp only [hs2, if_true]
          exact loopInv_updateStatus_same h rfl rfl rfl
  · simp only [hv]
    simpa using h

theorem loopInv_streamFold (stc : Nat) (chunks : List Chunk) :
    ∀ acc : StreamAcc, loopInv acc.es →
      loopInv ((chunks.foldl (streamStep stc) acc).es) := by
  induction chunks with
  | nil => intro acc h; exact h
  | cons c rest ih =>
    intro acc h
    rw [List.foldl_cons]
    exact ih _ (loopInv_streamStep stc acc c h)

theorem loopInv_postStreamUpdate (stc : Nat) (acc : StreamAcc)
    (h : loopInv acc.es) : loopInv (postStreamUpdate stc acc) := by
  unfold postStreamUpdate
  by_cases hfc : acc.functionCalls.length > 0 <;>
    exact loopInv_updateStatus_same h (by simp) rfl rfl

theorem inv_runToolCall_none (env : Env) (t i : Nat) (fc : FunctionCall)
    (es : EngineSt) (parts : List MsgPart) (h : loopInv es) :
    (∀ m es2, runToolCall none env t i fc es parts = .brkFatal m es2 → invES es2) ∧
    (∀ ps es2, runToolCall none env t i fc es parts = .cont ps es2 → loopInv es2) := by
  have h1 : loopInv (engineUpdateToolStatus es (toolCallId fc)
      { name := some fc.name, args := some (fc.args.getD []),
        status := some .executing, startTime := some 0 }) :=
    loopInv_engineUpdateToolStatus _ _ h
  cases he : (env.toolResult t i).error with
  | some emsg =>
    have h2 : loopInv (engineUpdateToolStatus
        (engineUpdateToolStatus es (toolCallId fc)
          { name := some fc.name, args := some (fc.args.getD []),
            status := some .executing, startTime := some 0 })
        (toolCallId fc)
        { status := some .error,
          error := some (toolErrorMsg fc (env.toolResult t i) emsg),
          duration := some 0 }) :=
      loopInv_engineUpdateToolStatus _ _ h1
    by_cases hfat : (!strContains emsg "not found in registry" &&
        isFatalToolError none (toolErrorMsg fc (env.toolResult t i) emsg)) = true
    · constructor
      · intro m es2 hh
        simp only [runToolCall, he, hfat, if_true] at hh
        cases hh
        exact invES_updateStatus_error h2.1 rfl rfl
      · intro ps es2 hh
        simp only [runToolCall, he, hfat, if_true] at hh
        exact ToolStepRes.noConfusion hh
    · have hfat2 : (!strContains emsg "not found in registry" &&
          isFatalToolError none (toolErrorMsg fc (env.toolResult t i) emsg)) = false := by
        simpa using hfat
      constructor
      · intro m es2 hh
        simp only [runToolCall, he, hfat2, Bool.false_eq_true, if_false] at hh
        exact ToolStepRes.noConfusion hh
      · intro ps es2 hh
        simp only [runToolCall, he, hfat2, Bool.false_eq_true, if_false] at hh
        cases hh
        exact h2
  | none =>
    constructor
    · intro m es2 hh
      simp only [runToolCall, he] at hh
      exact ToolStepRes.noConfusion hh
    · intro ps es2 hh
      simp only [runToolCall, he] at hh
      cases hh
      exact loopInv_engineUpdateToolStatus _ _ h1

theorem inv_runToolCalls_none (env : Env) (t : Nat) :
    ∀ (fcs : List FunctionCall) (i : Nat) (es : EngineSt) (parts : List MsgPart),
      loopInv es →
      (∀ m es2, runToolCalls none env t i fcs es parts = .fatal m es2 → invES es2) ∧
      (∀ ps es2, runToolCalls none env t i fcs es parts = .done ps es2 → loopInv es2) := by
  intro fcs
  induction fcs with
  | nil =>
    intro i es parts h
    constructor
    · intro m es2 hh
      cases hh
    · intro ps es2 hh
      cases hh
      exact h
  | cons fc rest ih =>
    intro i es parts h
    constructor
    · intro m es2 hh
      unfold runToolCalls at hh
      revert hh
      cases hrc : runToolCall none env t i fc es parts with
      | brkFatal m2 esB =>
        intro hh
        cases hh
        exact (inv_runToolCall_none env t i fc es parts h).1 _ _ hrc
      | cont ps2 esC =>
        intro hh
        exact (ih (i + 1) esC ps2
          ((inv_runToolCall_none env t i fc es parts h).2 ps2 esC hrc)).1 m es2 hh
    · intro ps es2 hh
      unfold runToolCalls at hh
      revert hh
      cases hrc : runToolCall none env t i fc es parts with
      | brkFatal m2 esB => intro hh; cases hh
      | cont ps2 esC =>
        intro hh
        exact (ih (i + 1) esC ps2
          ((inv_runToolCall_none env t i fc es parts h).2 ps2 esC hrc)).2 ps es2 hh

theorem inv_noToolPhase_none (env : Env) (t stc : Nat) (es : EngineSt)
    (h : loopInv es) :
    (∀ b e es2, noToolPhase none env t stc es = .brk b e es2 → invES es2) ∧
    (∀ st2, noToolPhase none env t stc es = .next st2 → loopInv st2.es) := by
  have hdet : loopInv (updateStatus es fun st => { st with currentAction :=
      ⟨.thinking, "Determining if conversation should continue..."⟩ }) :=
    loopInv_updateStatus_same h rfl rfl rfl
  have hfail : invES (updateStatus
      (updateStatus es fun st => { st with currentAction :=
        ⟨.thinking, "Determining if conversation should continue..."⟩ })
      fun st =>
        { st with
            sessionState := .error,
            finalResult := some
              { success := false,
                error := some "Task failed: Task was not completed successfully.",
                summary := "Task failed: Task was not completed successfully" } }) :=
    invES_updateStatus_error hdet.1 rfl rfl
  constructor
  · intro b e es2 hh
    unfold noToolPhase at hh
    simp only [strategyComplete, Bool.false_eq_true, if_false] at hh
    cases hns : env.nextSpeaker t with
    | error u =>
      simp only [hns] at hh
      cases hh
      exact hfail
    | ok r =>
      simp only [hns] at hh
      cases r with
      | none =>
        simp only [Bool.false_eq_true, if_false] at hh
        cases hh
        exact hfail
      | some nsr =>
        cases hm : (nsr.next_speaker == "model") with
        | true =>
          simp only [hm, if_true] at hh
          exact StepRes.noConfusion hh
        | false =>
          simp only [hm, Bool.false_eq_true, if_false] at hh
          cases hh
          exact hfail
  · intro st2 hh
    unfold noToolPhase at hh
    simp only [strategyComplete, Bool.false_eq_true, if_false] at hh
    cases hns : env.nextSpeaker t with
    | error u =>
      simp only [hns] at hh
      exact StepRes.noConfusion hh
    | ok r =>
      simp only [hns] at hh
      cases r with
      | none =>
        simp only [Bool.false_eq_true, if_false] at hh
        exact StepRes.noConfusion hh
      | some nsr =>
        cases hm : (nsr.next_speaker == "model") with
        | true =>
          simp only [hm, if_true] at hh
          cases hh
          exact loopInv_updateStatus_same hdet rfl rfl rfl
        | false =>
          simp only [hm, Bool.false_eq_true, if_false] at hh
          exact StepRes.noConfusion hh

theorem inv_loopIter_none (env : Env) (cfg : Nat) (st : LoopSt)
    (h : loopInv st.es) :
    (∀ b e es2, loopIter none env cfg st = .brk b e es2 → invES es2) ∧
    (∀ st2, loopIter none env cfg st = .next st2 → loopInv st2.es) := by
  have hTT := loopInv_turnTop cfg st h
  constructor
  · intro b e es2 hh
    simp only [loopIter] at hh
    by_cases h1 : cfg > 0 ∧ st.es.sessionTurnCount + 1 > cfg
    · rw [if_pos h1] at hh
      cases hh
      exact h.1
    · rw [if_neg h1] at hh
      by_cases h2 : st.turnCount + 1 > MAX_TURNS
      · rw [if_pos h2] at hh
        cases hh
        exact h.1
      · rw [if_neg h2] at hh
        cases hsend : env.send (st.turnCount + 1) with
        | error msg =>
          simp only [hsend] at hh
          cases hrec : isRecoverableError msg with
          | true =>
            simp only [hrec, if_true] at hh
            exact StepRes.noConfusion hh
          | false =>
            simp only [hrec, Bool.false_eq_true, if_false] at hh
            cases hh
            exact hTT.1
        | ok chunks =>
          simp only [hsend] at hh
          have hmid : loopInv (postStreamUpdate (st.es.sessionTurnCount + 1)
              (streamPhase (st.es.sessionTurnCount + 1) (turnTopEs none cfg st)
                chunks)) :=
            loopInv_postStreamUpdate _ _
              (loopInv_streamFold (st.es.sessionTurnCount + 1) chunks _ hTT)
          by_cases hfc : (streamPhase (st.es.sessionTurnCount + 1)
              (turnTopEs none cfg st) chunks).functionCalls.length > 0
          · rw [if_pos hfc] at hh
            revert hh
            cases hrt : runToolCalls none env (st.turnCount + 1) 0
                (streamPhase (st.es.sessionTurnCount + 1) (turnTopEs none cfg st)
                  chunks).functionCalls
                (postStreamUpdate (st.es.sessionTurnCount + 1)
                  (streamPhase (st.es.sessionTurnCount + 1) (turnTopEs none cfg st)
                    chunks)) [] with
            | fatal m esF =>
              intro hh
              cases hh
              exact (inv_runToolCalls_none env (st.turnCount + 1) _ 0 _ [] hmid).1 _ _ hrt
            | done ps esD =>
              intro hh
              exact StepRes.noConfusion hh
          · rw [if_neg hfc] at hh
            exact (inv_noToolPhase_none env (st.turnCount + 1)
              (st.es.sessionTurnCount + 1) _ hmid).1 b e es2 hh
  · intro st2 hh
    simp only [loopIter] at hh
    by_cases h1 : cfg > 0 ∧ st.es.sessionTurnCount + 1 > cfg
    · rw [if_pos h1] at hh
      exact StepRes.noConfusion hh
    · rw [if_neg h1] at hh
      by_cases h2 : st.turnCount + 1 > MAX_TURNS
      · rw [if_pos h2] at hh
        exact StepRes.noConfusion hh
      · rw [if_neg h2] at hh
        cases hsend : env.send (st.turnCount + 1) with
        | error msg =>
          simp only [hsend] at hh
          cases hrec : isRecoverableError msg with
          | true =>
            simp only [hrec, if_true] at hh
            cases hh
            exact loopInv_updateStatus_same hTT rfl rfl rfl
          | false =>
            simp only [hrec, Bool.false_eq_true, if_false] at hh
            exact StepRes.noConfusion hh
        | ok chunks =>
          simp only [hsend] at hh
          have hmid : loopInv (postStreamUpdate (st.es.sessionTurnCount + 1)
              (streamPhase (st.es.sessionTurnCount + 1) (turnTopEs none cfg st)
                chunks)) :=
            loopInv_postStreamUpdate _ _
              (loopInv_streamFold (st.es.sessionTurnCount + 1) chunks _ hTT)
          by_cases hfc : (streamPhase (st.es.sessionTurnCount + 1)
              (turnTopEs none cfg st) chunks).functionCalls.length > 0
          · rw [if_pos hfc] at hh
            revert hh
            cases hrt : runToolCalls none env (st.turnCount + 1) 0
                (streamPhase (st.es.sessionTurnCount + 1) (turnTopEs none cfg st)
                  chunks).functionCalls
                (postStreamUpdate (st.es.sessionTurnCount + 1)
                  (streamPhase (st.es.sessionTurnCount + 1) (turnTopEs none cfg st)
                    chunks)) [] with
            | fatal m esF =>
              intro hh
              exact StepRes.noConfusion hh
            | done ps esD =>
              intro hh
              cases hh
              exact (inv_runToolCalls_none env (st.turnCount + 1) _ 0 _ [] hmid).2 _ _ hrt
          · rw [if_neg hfc] at hh
            exact (inv_noToolPhase_none env (st.turnCount + 1)
              (st.es.sessionTurnCount + 1) _ hmid).2 st2 hh

theorem inv_taskLoop_none (env : Env) (cfg : Nat) :
    ∀ (f : Nat) (st : LoopSt), loopInv st.es →
      invES (taskLoop none env cfg f st).es := by
  intro f
  induction f with
  | zero => intro st h; exact h.1
  | succ f2 ih =>
    intro st h
    unfold taskLoop
    cases hiter : loopIter none env cfg st with
    | brk b e es2 => exact (inv_loopIter_none env cfg st h).1 b e es2 hiter
    | next st2 => exact ih st2 ((inv_loopIter_none env cfg st h).2 st2 hiter)

theorem inv_executeTaskInternal_none (env : Env) (req : TaskRequest)
    (es : EngineSt) (h : invES es)
    (hp1 : 0 ≤ es.currentStatus.progress.percentage)
    (hp2 : es.currentStatus.progress.percentage ≤ 95) :
    (∀ r esF, executeTaskInternal none env req es = .ok (r, esF) → invES esF) ∧
    (∀ m esE, executeTaskInternal none env req es = .error (m, esE) → invES esE) := by
  have hrun : loopInv (updateStatus es fun s =>
      { s with
          sessionState := .running,
          currentAction := ⟨.thinking, "Starting task execution..."⟩ }) := by
    refine ⟨invES_updateStatus h ⟨fun _ => ⟨hp1, hp2⟩, fun hst => ?_⟩ h.2.2, rfl⟩
    cases hst
  constructor
  · intro r esF hh
    simp only [executeTaskInternal] at hh
    cases hcfg : env.configResult with
    | error m =>
      simp only [hcfg] at hh
      exact Except.noConfusion hh
    | ok cfg =>
      simp only [hcfg] at hh
      cases hpr : env.promptResult with
      | error m =>
        simp only [hpr] at hh
        exact Except.noConfusion hh
      | ok prompt =>
        simp only [hpr] at hh
        cases hh
        exact inv_taskLoop_none env cfg (MAX_TURNS + 1)
          { turnCount := 0, msgParts := [MsgPart.text prompt],
            es := updateStatus es fun s =>
              { s with
                  sessionState := .running,
                  currentAction := ⟨.thinking, "Starting task execution..."⟩ } } hrun
  · intro m esE hh
    simp only [executeTaskInternal] at hh
    cases hcfg : env.configResult with
    | error m2 =>
      simp only [hcfg] at hh
      cases hh
      exact h
    | ok cfg =>
      simp only [hcfg] at hh
      cases hpr : env.promptResult with
      | error m2 =>
        simp only [hpr] at hh
        cases hh
        exact hrun.1
      | ok prompt =>
        simp only [hpr] at hh
        exact Except.noConfusion hh

/-- C8: in a run with no configured Strategy, every status snapshot the
observer receives obeys the progress discipline — the fallback progress
value lies in [0, 95] whenever sessionState is `running`, and is exactly
100 whenever sessionState is `completed` (without a strategy the engine in
fact never reaches `completed`, so that holds a fortiori) — and, for any
strategy, the completion transition of the no-tool-calls branch forces the
percentage to exactly 100. -/
theorem claim_C8 (env : Env) (req : TaskRequest) (p : EnginePersist)
    (h : ∀ s ∈ p.trace, statusOk s) :
    (∀ s ∈ (executeTask none env req p).2.trace, statusOk s) ∧
    (∀ (strat : Option Strategy) (env2 : Env) (t stc : Nat) (es : EngineSt),
      strategyComplete strat es.currentStatus.toolCalls = true →
      noToolPhase strat env2 t stc es =
        .brk true none (updateStatus es fun s0 =>
          { s0 with
              sessionState := .completed,
              progress := { s0.progress with percentage := 100 } }) ∧
      (updateStatus es fun s0 =>
          { s0 with
              sessionState := .completed,
              progress := { s0.progress with percentage := 100 } }
        ).currentStatus.sessionState = .completed ∧
      (updateStatus es fun s0 =>
          { s0 with
              sessionState := .completed,
              progress := { s0.progress with percentage := 100 } }
        ).currentStatus.progress.percentage = 100) := by
  constructor
  · have hinit : statusOk (initialStatus req) := by
      constructor
      · intro hst
        cases hst
      · intro hst
        cases hst
    have hinv1 : invES (updateStatus ⟨p.sessionTurnCount, initialStatus req, p.trace⟩ id) :=
      invES_updateStatus ⟨h, hinit, trivial⟩ hinit trivial
    have hint := inv_executeTaskInternal_none env req
      (updateStatus ⟨p.sessionTurnCount, initialStatus req, p.trace⟩ id) hinv1
      (by norm_num [updateStatus, initialStatus]) (by norm_num [updateStatus, initialStatus])
    cases hrun : executeTaskInternal none env req
        (updateStatus ⟨p.sessionTurnCount, initialStatus req, p.trace⟩ id) with
    | ok val =>
      obtain ⟨res, esF⟩ := val
      have hF := hint.1 res esF hrun
      simp only [executeTask, hrun]
      exact hF.1
    | error val =>
      obtain ⟨msg, esE⟩ := val
      have hE := hint.2 msg esE hrun
      have hE2 : invES (updateStatus esE fun s =>
          { s with
              sessionState := .error,
              finalResult := some
                { success := false, error := some msg,
                  summary := "Task execution failed: " ++ msg } }) :=
        invES_updateStatus_error hE rfl rfl
      simp only [executeTask, hrun]
      exact hE2.1
  · intro strat env2 t stc es hc
    refine ⟨?_, rfl, rfl⟩
    unfold noToolPhase
    simp only [hc, if_true]

/-- A strategy that always declares the task complete, for the C8
witness. -/
def stratW : Strategy :=
  { calculateProgress := fun _ _ => 0, isTaskComplete := fun _ => true,
    fatalErrorPatterns := [], processToolResult := fun _ _ => {} }

theorem claim_C8_witness :
    statusOk ((executeTask none envCfgErr ⟨"s", "d"⟩ ⟨0, []⟩).2.trace.getD 1
      (initialStatus ⟨"s", "d"⟩)) ∧
    (noToolPhase (some stratW) envNoTool 1 1 esWit =
        .brk true none (updateStatus esWit fun s0 =>
          { s0 with
              sessionState := .completed,
              progress := { s0.progress with percentage := 100 } }) ∧
      (updateStatus esWit fun s0 =>
          { s0 with
              sessionState := .completed,
              progress := { s0.progress with percentage := 100 } }
        ).currentStatus.sessionState = .completed ∧
      (updateStatus esWit fun s0 =>
          { s0 with
              sessionState := .completed,
              progress := { s0.progress with percentage := 100 } }
        ).currentStatus.progress.percentage = 100) :=
  ⟨(claim_C8 envCfgErr ⟨"s", "d"⟩ ⟨0, []⟩ (by simp)).1 _ (by decide),
   (claim_C8 envCfgErr ⟨"s", "d"⟩ ⟨0, []⟩ (by simp)).2 (some stratW) envNoTool 1 1
     esWit rfl⟩

/-! ## Fuel adequacy: `MAX_TURNS + 1` fuel is exact for the unbounded loop -/

theorem noToolPhase_next_turnCount (strat : Option Strategy) (env : Env)
    (t stc : Nat) (es : EngineSt) (st2 : LoopSt)
    (h : noToolPhase strat env t stc es = .next st2) : st2.turnCount = t := by
  unfold noToolPhase at h
  cases hc : strategyComplete strat es.currentStatus.toolCalls with
  | true =>
    simp only [hc, if_true] at h
    exact StepRes.noConfusion h
  | false =>
    simp only [hc, Bool.false_eq_true, if_false] at h
    cases hns : env.nextSpeaker t with
    | error u =>
      simp only [hns] at h
      exact StepRes.noConfusion h
    | ok r =>
      simp only [hns] at h
      cases r with
      | none =>
        simp only [Bool.false_eq_true, if_false] at h
        exact StepRes.noConfusion h
      | some nsr =>
        cases hm : (nsr.next_speaker == "model") with
        | true =>
          simp only [hm, if_true] at h
          cases h
          rfl
        | false =>
          simp only [hm, Bool.false_eq_true, if_false] at h
          exact StepRes.noConfusion h

theorem loopIter_next_turnCount (strat : Option Strategy) (env : Env) (cfg : Nat)
    (st st2 : LoopSt) (h : loopIter strat env cfg st = .next st2) :
    st2.turnCount = st.turnCount + 1 := by
  simp only [loopIter] at h
  by_cases h1 : cfg > 0 ∧ st.es.sessionTurnCount + 1 > cfg
  · rw [if_pos h1] at h
    exact StepRes.noConfusion h
  · rw [if_neg h1] at h
    by_cases h2 : st.turnCount + 1 > MAX_TURNS
    · rw [if_pos h2] at h
      exact StepRes.noConfusion h
    · rw [if_neg h2] at h
      cases hsend : env.send (st.turnCount + 1) with
      | error msg =>
        simp only [hsend] at h
        cases hrec : isRecoverableError msg with
        | true =>
          simp only [hrec, if_true] at h
          cases h
          rfl
        | false =>
          simp only [hrec, Bool.false_eq_true, if_false] at h
          exact StepRes.noConfusion h
      | ok chunks =>
        simp only [hsend] at h
        by_cases hfc : (streamPhase (st.es.sessionTurnCount + 1)
            (turnTopEs strat cfg st) chunks).functionCalls.length > 0
        · rw [if_pos hfc] at h
          revert h
          cases hrt : runToolCalls strat env (st.turnCount + 1) 0
              (streamPhase (st.es.sessionTurnCount + 1) (turnTopEs strat cfg st)
                chunks).functionCalls
              (postStreamUpdate (st.es.sessionTurnCount + 1)
                (streamPhase (st.es.sessionTurnCount + 1) (turnTopEs strat cfg st)
                  chunks)) [] with
          | fatal m esF =>
            intro h
            exact StepRes.noConfusion h
          | done ps esD =>
            intro h
            cases h
            rfl
        · rw [if_neg hfc] at h
          exact noToolPhase_next_turnCount strat env (st.turnCount + 1)
            (st.es.sessionTurnCount + 1) _ st2 h

theorem loopIter_brk_of_ge (strat : Option Strategy) (env : Env) (cfg : Nat)
    (st : LoopSt) (h : MAX_TURNS ≤ st.turnCount) :
    ∃ b e es2, loopIter strat env cfg st = .brk b e es2 := by
  by_cases h1 : cfg > 0 ∧ st.es.sessionTurnCount + 1 > cfg
  · refine ⟨false, some "Reached max session turns for this session.",
      { st.es with sessionTurnCount := st.es.sessionTurnCount + 1 }, ?_⟩
    simp only [loopIter]
    rw [if_pos h1]
  · refine ⟨false, some s!"Reached hard turn limit ({MAX_TURNS}).",
      { st.es with sessionTurnCount := st.es.sessionTurnCount + 1 }, ?_⟩
    simp only [loopIter]
    rw [if_neg h1, if_pos (show st.turnCount + 1 > MAX_TURNS by omega)]

theorem taskLoop_fuel_add (strat : Option Strategy) (env : Env) (cfg : Nat) :
    ∀ (f k : Nat) (st : LoopSt), MAX_TURNS + 1 ≤ f + st.turnCount → 1 ≤ f →
      taskLoop strat env cfg (f + k) st = taskLoop strat env cfg f st := by
  intro f
  induction f with
  | zero =>
    intro k st hf h1
    exact absurd h1 (by omega)
  | succ f2 ih =>
    intro k st hf h1
    have hsh : f2 + 1 + k = (f2 + k) + 1 := by omega
    rw [hsh]
    cases hiter : loopIter strat env cfg st with
    | brk b e es =>
      simp only [taskLoop, hiter]
    | next st2 =>
      simp only [taskLoop, hiter]
      cases Nat.eq_zero_or_pos f2 with
      | inl hz =>
        subst hz
        obtain ⟨b, e, es2, hbrk⟩ := loopIter_brk_of_ge strat env cfg st (by omega)
        rw [hiter] at hbrk
        exact StepRes.noConfusion hbrk
      | inr hpos =>
        have ht2 := loopIter_next_turnCount strat env cfg st st2 hiter
        exact ih k st2 (by omega) hpos

/-- Fuel adequacy: any two fuel values at least `MAX_TURNS + 1 - turnCount`
(and at least 1) give the same loop result, so running the fuelled loop
with fuel `MAX_TURNS + 1` from `turnCount = 0` is exact for the source's
unbounded `while (true)` loop and the zero-fuel fallback is dead code. -/
theorem taskLoop_fuel_stable (strat : Option Strategy) (env : Env) (cfg : Nat)
    (f1 f2 : Nat) (st : LoopSt)
    (h1 : MAX_TURNS + 1 ≤ f1 + st.turnCount) (h2 : MAX_TURNS + 1 ≤ f2 + st.turnCount)
    (g1 : 1 ≤ f1) (g2 : 1 ≤ f2) :
    taskLoop strat env cfg f1 st = taskLoop strat env cfg f2 st := by
  rcases le_total f1 f2 with hle | hle
  · have he : f2 = f1 + (f2 - f1) := by omega
    rw [he, taskLoop_fuel_add strat env cfg f1 (f2 - f1) st h1 g1]
  · have he : f1 = f2 + (f1 - f2) := by omega
    rw [he, taskLoop_fuel_add strat env cfg f2 (f1 - f2) st h2 g2]

end TaskEngine
